import Mathlib

/-!
Verification development for the Akamai EdgeGrid Property module
(`src/index.js` of gfirem/akamai-edge-grid-property).

The development shallowly embeds the parts of the code that carry the
invariants of the spec:

* the head of the lookup-cache resolver `_getProperty` (fully-qualified
  record passthrough and name sanitization);
* the activation state machine `_activateProperty` (automatic
  warning-acknowledgment resubmission), `_deactivateProperty`
  (idempotent deactivation) and `_pollActivation` (status polling),
  each modelled as a deterministic function over a script of remote
  responses, one script element per HTTP round trip;
* the rule-tree model and the advanced-metadata reconciliation
  algorithm `mergeAdvancedUUIDRules`.

JavaScript in-place mutation of the (strict, acyclic) rule tree is
modelled by functional updates addressed by tree paths: a node is
identified by its list of child indices from the root, a directive by
its owner node's path, the list it lives in (behaviors or criteria) and
its index there.  The `md5` digest from the external `md5` package is
modelled by an arbitrary function parameter `h : String → String`; the
code only ever compares digests of payload strings for equality, and
equal strings always digest equally, so every theorem quantifying over
`h` covers the real digest.
-/

namespace EdgeGridProperty

/-! ## JavaScript string helpers -/

/-- Substring containment, the model of JavaScript's
`String.prototype.includes` and of truthiness of `s.match(pat)` for a
plain-text pattern. -/
def hasSubstrAux (pat : List Char) : List Char → Bool
  | [] => pat.isEmpty
  | c :: rest => List.isPrefixOf pat (c :: rest) || hasSubstrAux pat rest

/-- String-level wrapper for `hasSubstrAux`. -/
def hasSubstr (s pat : String) : Bool :=
  hasSubstrAux pat.data s.data

/-- Characters admitted by the regex class `[a-z0-9_]` used in
`activationLink.match('activations/([a-z0-9_]+)\\b')`. -/
def isIdChar (c : Char) : Bool :=
  (('a' ≤ c && c ≤ 'z') || c.isDigit || c = '_')

/-- Scan for the first occurrence of `"activations/"` followed by a
nonempty run of `[a-z0-9_]` characters and return that run, the model
of the capture group in `match('activations/([a-z0-9_]+)\\b')`. -/
def scanActivations : List Char → Option String
  | [] => none
  | c :: rest =>
    if List.isPrefixOf ("activations/".data) (c :: rest) then
      let run := ((c :: rest).drop ("activations/".data.length)).takeWhile isIdChar
      if run.isEmpty then scanActivations rest else some (String.mk run)
    else scanActivations rest

/-- Model of `!link ? null : link.match('activations/([a-z0-9_]+)\\b')`
followed by taking `matches[1]`: a missing or empty link yields no id. -/
def extractActivationId : Option String → Option String
  | none => none
  | some s => if s = "" then none else scanActivations s.data

/-! ## Lookup cache head (`_getProperty`, src/index.js lines 471-511)

The code first probes the lookup key for the fields `groupId`,
`propertyId` and `contractId` (all three truthy) and, when they are all
present, returns the key itself immediately — before `this._init()`
runs and before any of the cache tables is read or written.  Otherwise
it calls `propertyLookup.replace(/[^\w.-]/gi, '_')`: on a string this
sanitizes the key, on a plain record object `.replace` is not a
function and the call throws a `TypeError`. -/

/-- The record fields `_getProperty` probes.  `none` models an absent
field, `some ""` an empty string; both are falsy in JavaScript. -/
structure PropertyRecord where
  id : Option String
  propertyId : Option String
  groupId : Option String
  contractId : Option String
deriving DecidableEq, Repr

/-- A lookup key is either a string or a record object. -/
inductive PropertyLookup where
  | str (s : String)
  | record (r : PropertyRecord)
deriving DecidableEq, Repr

/-- JavaScript truthiness of an optional string field. -/
def truthy : Option String → Bool
  | none => false
  | some s => s ≠ ""

/-- Model of `propertyLookup.replace(/[^\w.-]/gi, '_')`: every character
outside `[A-Za-z0-9_.-]` is replaced by an underscore. -/
def sanitizeLookup (s : String) : String :=
  String.mk (s.data.map (fun c =>
    if c.isAlphanum || c = '_' || c = '.' || c = '-' then c else '_'))

/-- Outcome of the head of `_getProperty`: immediate passthrough of the
record (before cache initialization, hence with no cache side effects),
continuation into the cache lookup with the sanitized key, or a
`TypeError` from calling `.replace` on a non-string. -/
inductive GetPropOutcome where
  | passthrough (r : PropertyRecord)
  | continueWith (sanitized : String)
  | typeError
deriving DecidableEq, Repr

/-- Model of src/index.js lines 471-475. -/
def getPropertyHead : PropertyLookup → GetPropOutcome
  | .record r =>
    if truthy r.groupId && truthy r.propertyId && truthy r.contractId then
      .passthrough r
    else
      .typeError
  | .str s => .continueWith (sanitizeLookup s)

/-! ## Activation with warning acknowledgment
(`_activateProperty`, src/index.js lines 849-913)

Each call sends one POST whose body carries the current
`acknowledgeWarnings` list and consumes one scripted response.  A
response whose parsed body has a `type` containing
`warnings-not-acknowledged` makes the code collect every
`warning.messageId` and call itself again with exactly those ids —
there is no ceiling on how often this recursion fires (the source
carries the comment `TODO: check that this doesn't happen more than
once...`). -/

/-- A scripted response to the activation POST: the HTTP status, the
parsed body's `type` and `warnings[*].messageId` fields, and its
`activationLink`. -/
structure ActResponse where
  statusCode : Nat
  type : Option String
  warnings : List String
  activationLink : Option String
deriving DecidableEq, Repr

/-- Truthiness of `body.type && body.type.includes('warnings-not-acknowledged')`. -/
def warnNotAcked (t : Option String) : Bool :=
  match t with
  | none => false
  | some s => hasSubstr s "warnings-not-acknowledged"

/-- Result of `_activateProperty` on a finite response script.  `sent`
records, in order, the `acknowledgeWarnings` list of every request the
code issued. -/
inductive ActResult where
  | resolved (activationId : String) (sent : List (List String))
  | rejectedBody (sent : List (List String))
  | rejectedHttp (sent : List (List String))
  | outOfScript (sent : List (List String))
deriving DecidableEq, Repr

/-- Model of `_activateProperty`: one script element per POST.  Status
in `[200, 400]` parses the body; a warnings body recurses with the
collected message ids; otherwise the activation id is extracted from
`activationLink` (rejecting the body when the link yields no match);
statuses outside the range reject with the raw body. -/
def activateProperty : List ActResponse → List String → List (List String) → ActResult
  | [], acks, sent => .outOfScript (sent ++ [acks])
  | r :: rest, acks, sent =>
    let sent' := sent ++ [acks]
    if 200 ≤ r.statusCode ∧ r.statusCode ≤ 400 then
      if warnNotAcked r.type then
        activateProperty rest r.warnings sent'
      else
        match extractActivationId r.activationLink with
        | some id => .resolved id sent'
        | none => .rejectedBody sent'
    else .rejectedHttp sent'

/-! ## Deactivation (`_deactivateProperty`, src/index.js lines 918-968) -/

/-- A scripted response to the deactivation POST.  `body` is the raw
response body (the code runs `response.body.match(...)` on it outside
the success range); `activationLink` is the parsed body's link field,
read only inside the success range. -/
structure DeactResponse where
  statusCode : Nat
  body : String
  activationLink : Option String
deriving DecidableEq, Repr

/-- Result of `_deactivateProperty`. -/
inductive DeactResult where
  | resolvedId (activationId : String)
  | resolvedIdempotent
  | rejectedParsed
  | rejectedBody (body : String)
  | rejectedNoResponse
deriving DecidableEq, Repr

/-- Model of the response callback of `_deactivateProperty`: status in
`[200, 400]` extracts the activation id from the link (rejecting the
parsed body if the link yields no match); otherwise a body mentioning
`property_version_not_active` resolves with no value (idempotent
deactivation) and any other body is rejected. -/
def deactivateStep : Option DeactResponse → DeactResult
  | none => .rejectedNoResponse
  | some r =>
    if 200 ≤ r.statusCode ∧ r.statusCode ≤ 400 then
      match extractActivationId r.activationLink with
      | some id => .resolvedId id
      | none => .rejectedParsed
    else if hasSubstr r.body "property_version_not_active" then
      .resolvedIdempotent
    else
      .rejectedBody r.body

/-- `_deactivateProperty` issues a single POST and settles on its
response: unlike `_activateProperty` it has no warning-acknowledgment
recursion, so the request count is always one. -/
def deactivateProperty (script : List DeactResponse) : DeactResult × Nat :=
  match script with
  | [] => (deactivateStep none, 1)
  | r :: _ => (deactivateStep (some r), 1)

/-! ## Activation polling (`_pollActivation`, src/index.js lines 970-1021)

Each poll sends one GET and consumes one scripted response.  A 200
response with a JSON content type resolves to the parsed activation
items; a 500 response is mapped to a single synthetic `PENDING` item
(and the late `reject` in the same callback is a no-op because the
promise is already resolved); any other response rejects.  The
continuation then folds over the items exactly as the code's `map`
does: `pending = pending || 'ACTIVE' != status.status` and
`active = !pending && 'ACTIVE' === status.status`; a pending result
sleeps 30000 time units and polls again, otherwise the poll resolves
`true` when `active` and rejects with the raw payload when not. -/

/-- A scripted response to the polling GET. -/
structure PollResponse where
  statusCode : Nat
  jsonContentType : Bool
  items : List String
deriving DecidableEq, Repr

/-- Outcome of one polling round trip. -/
inductive PollOutcome where
  | ok (items : List String)
  | err (statusCode : Nat)
deriving DecidableEq, Repr

/-- Model of the polling response callback. -/
def pollStep (r : PollResponse) : PollOutcome :=
  if r.statusCode = 200 ∧ r.jsonContentType then .ok r.items
  else if r.statusCode = 500 then .ok ["PENDING"]
  else .err r.statusCode

/-- One step of the code's `map` over activation items:
`pending = pending || 'ACTIVE' != status.status` followed by
`active = !pending && 'ACTIVE' === status.status`. -/
def pollFlagStep (pa : Bool × Bool) (st : String) : Bool × Bool :=
  let p := pa.1 || decide (st ≠ "ACTIVE")
  (p, !p && decide (st = "ACTIVE"))

/-- The pair `(pending, active)` after the code's `map` over the
activation items. -/
def pollFlags (items : List String) : Bool × Bool :=
  items.foldl pollFlagStep (false, false)

/-- Result of `_pollActivation` over a finite script. -/
inductive PollResult where
  | resolvedTrue
  | rejectedPayload (items : List String)
  | rejectedResponse (statusCode : Nat)
  | outOfScript
deriving DecidableEq, Repr

/-- Model of `_pollActivation`: returns the result together with the
number of polls issued and the total time slept (30000 units between
consecutive polls). -/
def pollActivation : List PollResponse → PollResult × Nat × Nat
  | [] => (.outOfScript, 0, 0)
  | r :: rest =>
    match pollStep r with
    | .err s => (.rejectedResponse s, 1, 0)
    | .ok items =>
      let flags := pollFlags items
      if flags.1 then
        let next := pollActivation rest
        (next.1, next.2.1 + 1, next.2.2 + 30000)
      else if flags.2 then (.resolvedTrue, 1, 0)
      else (.rejectedPayload items, 1, 0)

/-! ## Rule-tree model

One node of the rule tree (§3 of the spec, and the JSON shape consumed
by `mergeAdvancedUUIDRules` in src/index.js lines 1328-1392).  The
algorithm only reads the `name`, `uuid` and `options.xml/openXml/closeXml`
fields of directives and the `uuid`/`behaviors`/`criteria`/`children`
fields of nodes; every other field is carried verbatim. -/

/-- The option fields of a directive that the reconciliation algorithm
reads, plus the remaining option entries carried verbatim. -/
structure DirectiveOptions where
  xml : Option String
  openXml : Option String
  closeXml : Option String
  extra : List (String × String)
deriving DecidableEq, Repr

/-- A behavior or criterion of a rule node. -/
structure Directive where
  name : String
  uuid : Option String
  options : DirectiveOptions
deriving DecidableEq, Repr

/-- A rule-tree node.  `children` is the (possibly empty) ordered list
of sub-rules; a missing `children` array in the JSON is the empty
list. -/
inductive RuleTree where
  | node (name : String) (uuid : Option String) (behaviors : List Directive)
      (criteria : List Directive) (children : List RuleTree)
      (criteriaMustSatisfy : String) (comments : String)
deriving Repr

/-- Name of a rule node. -/
def RuleTree.name : RuleTree → String
  | .node n _ _ _ _ _ _ => n

/-- Identity token of a rule node; the literal `"default"` marks the
tree root. -/
def RuleTree.uuid : RuleTree → Option String
  | .node _ u _ _ _ _ _ => u

/-- Behaviors of a rule node. -/
def RuleTree.behaviors : RuleTree → List Directive
  | .node _ _ bs _ _ _ _ => bs

/-- Criteria of a rule node. -/
def RuleTree.criteria : RuleTree → List Directive
  | .node _ _ _ cs _ _ _ => cs

/-- Children of a rule node. -/
def RuleTree.children : RuleTree → List RuleTree
  | .node _ _ _ _ ch _ _ => ch

/-- Whether a directive is one of the two opaque kinds,
`advNode.name === 'advanced' || advNode.name === 'matchAdvanced'`. -/
def Directive.isAdvanced (d : Directive) : Bool :=
  d.name = "advanced" || d.name = "matchAdvanced"

/-- JavaScript string coercion `'' + v` of an optional field: an absent
field coerces to the literal string `"undefined"`. -/
def jsCoerce : Option String → String
  | none => "undefined"
  | some s => s

/-- The payload string the code actually computes for an advanced
directive (src/index.js lines 1340-1342).  In JavaScript `+` binds
tighter than `||`, so
`options.xml || '' + options.openXml || '' + options.closeXml || ''`
parses as `options.xml || ('' + options.openXml) || ('' + options.closeXml) || ''`:
the first truthy alternative wins, and `'' + undefined` is the (truthy)
string `"undefined"`. -/
def advancedXml (o : DirectiveOptions) : String :=
  let x := match o.xml with
    | none => ""
    | some s => s
  if x ≠ "" then x
  else
    let a := jsCoerce o.openXml
    if a ≠ "" then a
    else
      let b := jsCoerce o.closeXml
      if b ≠ "" then b else ""

/-- Modelled from the spec: the digest input the spec describes — the
concatenation of the opaque payload fields `xml`, `openXml` and
`closeXml`, each absent field contributing the empty string.  This
definition exists only to be compared with `advancedXml`, the string
the code actually digests. -/
def specConcatPayload (o : DirectiveOptions) : String :=
  (match o.xml with | none => "" | some s => s) ++
    (match o.openXml with | none => "" | some s => s) ++
    (match o.closeXml with | none => "" | some s => s)

/-! ### Tree paths and uuid writes

A node of a strict rule tree is addressed by its list of child indices
from the root; a directive by its owner node's path, the list it lives
in and its index there.  In-place JavaScript mutation of a `uuid` field
becomes a functional update at the corresponding path. -/

/-- Address of a directive inside a tree. -/
structure DirPath where
  node : List Nat
  inBehaviors : Bool
  idx : Nat
deriving DecidableEq, Repr

/-- The node reached by following a path of child indices. -/
def nodeAt : List Nat → RuleTree → Option RuleTree
  | [], t => some t
  | i :: p, .node _ _ _ _ ch _ _ =>
    match ch.get? i with
    | some c => nodeAt p c
    | none => none

/-- Apply `f` to the `i`-th element of a list, leaving the rest alone. -/
def mapChild (f : RuleTree → RuleTree) : List RuleTree → Nat → List RuleTree
  | [], _ => []
  | c :: cs, 0 => f c :: cs
  | c :: cs, i + 1 => c :: mapChild f cs i

/-- Write the `uuid` field of the node at a path. -/
def setNodeUuid : List Nat → Option String → RuleTree → RuleTree
  | [], u, .node nm _ bs cs ch s m => .node nm u bs cs ch s m
  | i :: p, u, .node nm u0 bs cs ch s m =>
    .node nm u0 bs cs (mapChild (fun c => setNodeUuid p u c) ch i) s m

/-- Write the `uuid` field of the `i`-th directive of a list. -/
def setDirAt : List Directive → Nat → Option String → List Directive
  | [], _, _ => []
  | d :: ds, 0, u => { d with uuid := u } :: ds
  | d :: ds, i + 1, u => d :: setDirAt ds i u

/-- Write the `uuid` field of a directive of the given node. -/
def setDirHere (inB : Bool) (i : Nat) (u : Option String) : RuleTree → RuleTree
  | .node nm u0 bs cs ch s m =>
    if inB then .node nm u0 (setDirAt bs i u) cs ch s m
    else .node nm u0 bs (setDirAt cs i u) ch s m

/-- Write the `uuid` field of the directive at a `DirPath`. -/
def setDirUuid : List Nat → Bool → Nat → Option String → RuleTree → RuleTree
  | [], b, j, u, t => setDirHere b j u t
  | i :: p, b, j, u, .node nm u0 bs cs ch s m =>
    .node nm u0 bs cs (mapChild (fun c => setDirUuid p b j u c) ch i) s m

/-- The directive at a `DirPath`. -/
def dirAt (dp : DirPath) (t : RuleTree) : Option Directive :=
  (nodeAt dp.node t).bind
    (fun n => (if dp.inBehaviors then n.behaviors else n.criteria).get? dp.idx)

/-! ### Collection of advanced-metadata entries (the `search` closure,
src/index.js lines 1334-1366) -/

/-- One element of an entry's ancestor chain: the node's path and the
snapshot of its `uuid` at collection time. -/
structure PathedNode where
  path : List Nat
  uuid : Option String
deriving DecidableEq, Repr

/-- One `foundNode` record built by `search` for an advanced directive:
the digest key it is grouped under, the computed payload string, the
directive's `uuid` snapshot, the directive's address, and the ancestor
chain (every enclosing node whose `uuid` is not `'default'`, outermost
first, including the owner node itself). -/
structure AdvEntry where
  key : String
  xml : String
  advUuid : Option String
  advPath : DirPath
  parents : List PathedNode
deriving DecidableEq, Repr

/-- The `found` table: groups of entries keyed by digest, in first-insertion
order, exactly as a JavaScript object keyed by digest strings. -/
abbrev Found := List (String × List AdvEntry)

/-- `if (!found[md5]) found[md5] = []; found[md5].push(foundNode)`:
append to the first group with the entry's key, or append a fresh
group at the end. -/
def pushEntry : Found → AdvEntry → Found
  | [], e => [(e.key, [e])]
  | (k, es) :: rest, e =>
    if k = e.key then (k, es ++ [e]) :: rest
    else (k, es) :: pushEntry rest e

/-- Collect the advanced directives of one directive list, indexing
from `i`.  `inB` records whether the list is the node's `behaviors` or
its `criteria`. -/
def collectDirs (h : String → String) (path : List Nat) (chain : List PathedNode)
    (inB : Bool) : Nat → List Directive → Found → Found
  | _, [], acc => acc
  | i, d :: ds, acc =>
    let acc' :=
      if d.isAdvanced then
        pushEntry acc
          { key := h (advancedXml d.options)
            xml := advancedXml d.options
            advUuid := d.uuid
            advPath := ⟨path, inB, i⟩
            parents := chain }
      else acc
    collectDirs h path chain inB (i + 1) ds acc'

mutual

/-- The `search` closure on one node: extend the ancestor chain with
the node itself unless its `uuid` is `'default'`, scan
`behaviors.concat(criteria)` for advanced directives, then recurse into
the children. -/
def searchNode (h : String → String) : RuleTree → List Nat → List PathedNode → Found → Found
  | .node _ u bs cs ch _ _, path, parents, acc =>
    let chain := if u ≠ some "default" then parents ++ [⟨path, u⟩] else parents
    let acc1 := collectDirs h path chain true 0 bs acc
    let acc2 := collectDirs h path chain false 0 cs acc1
    searchChildren h ch path 0 chain acc2

/-- The `search` recursion over a node's children, tracking each
child's index to form its path. -/
def searchChildren (h : String → String) : List RuleTree → List Nat → Nat → List PathedNode → Found → Found
  | [], _, _, _, acc => acc
  | c :: cs, path, i, chain, acc =>
    searchChildren h cs path (i + 1) chain (searchNode h c (path ++ [i]) chain acc)

end

/-- `search(rules)` from the root: empty path, empty chain, empty table. -/
def collect (h : String → String) (t : RuleTree) : Found :=
  searchNode h t [] [] []

/-! ### The merge loop (src/index.js lines 1370-1391) -/

/-- `oldAdvMtdBehaviors[key] || []`: the group of old entries under a
digest key (first group with that key, or empty). -/
def lookupGroup (found : Found) (k : String) : List AdvEntry :=
  match found with
  | [] => []
  | (k', es) :: rest => if k' = k then es else lookupGroup rest k

/-- `oldAdvMtdBehaviors[key] = ...`: replace the group under a key. -/
def setGroup (found : Found) (k : String) (es : List AdvEntry) : Found :=
  match found with
  | [] => []
  | (k', es') :: rest =>
    if k' = k then (k', es) :: rest else (k', es') :: setGroup rest k es

/-- `oldAdvObjectList.find(x => depth === x.parentRules.length)` paired
with `filter(x => x != oldAdvObject)`: the first entry of the given
ancestor depth, together with the list with that one entry removed. -/
def findRemoveByDepth : List AdvEntry → Nat → Option (AdvEntry × List AdvEntry)
  | [], _ => none
  | e :: es, n =>
    if e.parents.length = n then some (e, es)
    else
      match findRemoveByDepth es n with
      | some (f, rest) => some (f, e :: rest)
      | none => none

/-- The uuid copies for one matched pair, in program order: for each
chain position the old ancestor's `uuid` snapshot is written onto the
new ancestor node.  The old tree is never written, so the snapshot in
`PathedNode.uuid` is exactly what the code reads at merge time. -/
def writeChain : List (PathedNode × PathedNode) → RuleTree → RuleTree
  | [], t => t
  | (pn, po) :: rest, t => writeChain rest (setNodeUuid pn.path po.uuid t)

/-- All writes for one matched pair: the ancestor-chain copies followed
by the directive's own `uuid` copy. -/
def applyMatchWrites (eNew eOld : AdvEntry) (t : RuleTree) : RuleTree :=
  setDirUuid eNew.advPath.node eNew.advPath.inBehaviors eNew.advPath.idx eOld.advUuid
    (writeChain (eNew.parents.zip eOld.parents) t)

/-- The error message thrown when a new advanced payload has no
equal-depth candidate in the old tree (src/index.js line 1386). -/
def unmatchedAdvancedMsg (xml : String) : String :=
  "Cannot find Advanced Metadata in the destination rules. For safety, the Advanced behavior has to have been previously pushed on the destination config: " ++ xml

/-- The inner loop over one digest group of new entries: match each new
entry against the old pool under the group's key, copy the uuids and
consume the matched old entry, or throw. -/
def mergeGroup (k : String) : List AdvEntry → RuleTree → Found → Except String (RuleTree × Found)
  | [], t, pool => .ok (t, pool)
  | e :: es, t, pool =>
    match findRemoveByDepth (lookupGroup pool k) e.parents.length with
    | some (eo, rest) =>
      mergeGroup k es (applyMatchWrites e eo t) (setGroup pool k rest)
    | none => .error (unmatchedAdvancedMsg e.xml)

/-- The outer loop over `Object.keys(newAdvMtdBehaviors)` in insertion
order. -/
def mergeGroups : List (String × List AdvEntry) → RuleTree → Found → Except String (RuleTree × Found)
  | [], t, pool => .ok (t, pool)
  | (k, es) :: gs, t, pool =>
    match mergeGroup k es t pool with
    | .ok (t', pool') => mergeGroups gs t' pool'
    | .error msg => .error msg

/-- Model of `EdgeGridProperty.mergeAdvancedUUIDRules(oldRules, newRules)`:
collect both trees' advanced entries, then rewrite the new tree's
identity tokens in place.  A thrown `Error` becomes `Except.error`; on
success the function returns the (mutated) new tree. -/
def mergeAdvancedUUIDRules (h : String → String) (oldRules newRules : RuleTree) :
    Except String RuleTree :=
  match mergeGroups (collect h newRules) newRules (collect h oldRules) with
  | .ok (t, _) => .ok t
  | .error msg => .error msg

/-! ## Auxiliary definitions and concrete witness data -/

mutual

/-- Whether a tree contains any `advanced`/`matchAdvanced` directive. -/
def hasAdvanced : RuleTree → Bool
  | .node _ _ bs cs ch _ _ =>
    bs.any Directive.isAdvanced || cs.any Directive.isAdvanced || hasAdvancedList ch

/-- `hasAdvanced` over a list of trees. -/
def hasAdvancedList : List RuleTree → Bool
  | [] => false
  | c :: cs => hasAdvanced c || hasAdvancedList cs

end

/-- The record literal named by the spec's test property:
`{id:"prp_1", groupId:"grp_1", contractId:"ctr_1"}`. -/
def c7record : PropertyRecord :=
  { id := some "prp_1", propertyId := none, groupId := some "grp_1", contractId := some "ctr_1" }

/-- A small advanced-free tree for the claim C5 witness. -/
def c5old : RuleTree :=
  .node "default" (some "default") [] []
    [.node "Perf" (some "x1")
      [{ name := "gzipResponse", uuid := none,
         options := { xml := none, openXml := none, closeXml := none,
                      extra := [("behavior", "ALWAYS")] } }]
      [{ name := "contentType", uuid := none,
         options := { xml := none, openXml := none, closeXml := none, extra := [] } }]
      [] "all" ""] "all" ""

/-- A second advanced-free tree for the claim C5 witness. -/
def c5new : RuleTree :=
  .node "default" (some "default") [] []
    [.node "Perf" (some "y1")
      [{ name := "caching", uuid := none,
         options := { xml := none, openXml := none, closeXml := none, extra := [] } }]
      [] [] "any" "changed"] "all" ""

/-- The old directive's options in the claim C6 exhibit:
`xml = "A"`, `openXml = "B"`. -/
def c6OptOld : DirectiveOptions :=
  { xml := some "A", openXml := some "B", closeXml := none, extra := [] }

/-- The new directive's options in the claim C6 exhibit:
`xml = "A"`, `openXml = "C"`. -/
def c6OptNew : DirectiveOptions :=
  { xml := some "A", openXml := some "C", closeXml := none, extra := [] }

/-- Old tree of the claim C6 exhibit: one advanced directive whose
opaque payload is `c6OptOld`. -/
def c6Old : RuleTree :=
  .node "default" (some "default") [] []
    [.node "X" (some "old-x")
      [{ name := "advanced", uuid := some "old-adv", options := c6OptOld }] [] [] "all" ""]
    "all" ""

/-- New tree of the claim C6 exhibit: one advanced directive whose
opaque payload differs from the old one in `openXml` only. -/
def c6New : RuleTree :=
  .node "default" (some "default") [] []
    [.node "X" (some "new-x")
      [{ name := "advanced", uuid := some "new-adv", options := c6OptNew }] [] [] "all" ""]
    "all" ""

/-- Advanced-free old tree for the claim C3 witness. -/
def c3Old : RuleTree :=
  .node "default" (some "default") [] []
    [.node "X" (some "o-x")
      [{ name := "caching", uuid := none,
         options := { xml := none, openXml := none, closeXml := none, extra := [] } }]
      [] [] "all" ""] "all" ""

/-- New tree for the claim C3 witness, carrying one advanced directive
whose payload the old tree has never seen. -/
def c3New : RuleTree :=
  .node "default" (some "default") [] []
    [.node "X" (some "n-x")
      [{ name := "advanced", uuid := some "n-adv",
         options := { xml := some "P", openXml := none, closeXml := none, extra := [] } }]
      [] [] "all" ""] "all" ""

/-- What the code returns on the claim C6 exhibit: the new tree with
the old identity tokens copied over, the differing payloads
notwithstanding. -/
def c6Merged : RuleTree :=
  .node "default" (some "default") [] []
    [.node "X" (some "old-x")
      [{ name := "advanced", uuid := some "old-adv", options := c6OptNew }] [] [] "all" ""]
    "all" ""

/-- The single entry collected from the new tree of the claim C3
witness. -/
def c3entry : AdvEntry :=
  { key := "P", xml := "P", advUuid := some "n-adv",
    advPath := { node := [0], inBehaviors := true, idx := 0 },
    parents := [{ path := [0], uuid := some "n-x" }] }


/-! ## Frame-condition vocabulary (claims C4 and C10) -/

mutual

/-- Erase every identity token of a tree: the `uuid` fields of all
nodes and directives are cleared, everything else is kept.  Two trees
with equal erasures differ at most in `uuid` fields. -/
def stripUuids : RuleTree → RuleTree
  | .node nm _ bs cs ch s m =>
    .node nm none (bs.map fun d => { d with uuid := none })
      (cs.map fun d => { d with uuid := none }) (stripUuidsList ch) s m

/-- `stripUuids` over a list of trees. -/
def stripUuidsList : List RuleTree → List RuleTree
  | [] => []
  | c :: cs => stripUuids c :: stripUuidsList cs

end

/-- One in-place uuid assignment performed by the merge loop: either
`newAdvObject.parentRules[i].uuid = ...` or
`newAdvObject.advNode.uuid = ...`. -/
inductive UuidWrite where
  | nodeWrite (path : List Nat) (uuid : Option String)
  | dirWrite (path : List Nat) (inBehaviors : Bool) (idx : Nat) (uuid : Option String)
deriving DecidableEq, Repr

/-- Perform one uuid write on a tree. -/
def applyWrite (t : RuleTree) : UuidWrite → RuleTree
  | .nodeWrite p u => setNodeUuid p u t
  | .dirWrite p b j u => setDirUuid p b j u t

/-- Perform a sequence of uuid writes, in order. -/
def applyWrites (ws : List UuidWrite) (t : RuleTree) : RuleTree :=
  ws.foldl applyWrite t

/-- The writes of one matched pair, in program order: the
ancestor-chain copies followed by the directive's own copy. -/
def entryWrites (eNew eOld : AdvEntry) : List UuidWrite :=
  (eNew.parents.zip eOld.parents).map
      (fun pq => UuidWrite.nodeWrite pq.1.path pq.2.uuid) ++
    [UuidWrite.dirWrite eNew.advPath.node eNew.advPath.inBehaviors eNew.advPath.idx
      eOld.advUuid]

/-- A write targets an entry when it writes the uuid of the entry's
directive or of one of the entry's chain nodes (the non-`default`
ancestors, owner included). -/
def EntryTargets (w : UuidWrite) (e : AdvEntry) : Prop :=
  (∃ pn ∈ e.parents, ∃ u, w = UuidWrite.nodeWrite pn.path u) ∨
  (∃ u, w = UuidWrite.dirWrite e.advPath.node e.advPath.inBehaviors e.advPath.idx u)

/-- Collection-time validity of one entry with respect to the tree it
was collected from: the directive address is live and carries the
snapshot uuid, every chain node is live and carries its snapshot uuid,
and the chain paths strictly increase in length (they are ancestors of
one node). -/
def EntryOk (root : RuleTree) (e : AdvEntry) : Prop :=
  (dirAt e.advPath root).map Directive.uuid = some e.advUuid ∧
  (∀ pn ∈ e.parents, (nodeAt pn.path root).map RuleTree.uuid = some pn.uuid) ∧
  e.parents.Pairwise (fun a b => a.path.length < b.path.length)

/-- Validity of a whole `found` table. -/
def FoundOk (root : RuleTree) (found : Found) : Prop :=
  ∀ ke ∈ found, ∀ e ∈ ke.2, EntryOk root e

/-- Validity of an ancestor chain during the traversal: live snapshot
reads, strictly increasing path lengths, all shorter than the bound. -/
def ChainOk (root : RuleTree) (parents : List PathedNode) (n : Nat) : Prop :=
  (∀ pn ∈ parents, (nodeAt pn.path root).map RuleTree.uuid = some pn.uuid) ∧
  parents.Pairwise (fun a b => a.path.length < b.path.length) ∧
  (∀ pn ∈ parents, pn.path.length < n)

/-! ## Concrete data for the claims C4 and C10 witnesses -/

/-- The shared opaque payload of the claim C4 witness. -/
def c4Opt : DirectiveOptions :=
  { xml := some "M", openXml := none, closeXml := none, extra := [] }

/-- Old tree of the claim C4 witness: one `matchAdvanced` directive at
ancestor depth 2. -/
def c4Old : RuleTree :=
  .node "default" (some "default") [] []
    [.node "A" (some "oa") [] []
      [.node "B" (some "ob")
        [{ name := "matchAdvanced", uuid := some "o-adv", options := c4Opt }]
        [] [] "all" ""] "all" ""] "all" ""

/-- New tree of the claim C4 witness: an identical payload at the same
depth, under fresh identity tokens. -/
def c4New : RuleTree :=
  .node "default" (some "default") [] []
    [.node "A" (some "na") [] []
      [.node "B" (some "nb")
        [{ name := "matchAdvanced", uuid := some "n-adv", options := c4Opt }]
        [] [] "all" ""] "all" ""] "all" ""

/-- The merged result of the claim C4/C10 witness trees: the new tree
carrying the old identity tokens. -/
def c4Merged : RuleTree :=
  .node "default" (some "default") [] []
    [.node "A" (some "oa") [] []
      [.node "B" (some "ob")
        [{ name := "matchAdvanced", uuid := some "o-adv", options := c4Opt }]
        [] [] "all" ""] "all" ""] "all" ""

/-- The entry collected from `c4Old`. -/
def c4OldEntry : AdvEntry :=
  { key := "M", xml := "M", advUuid := some "o-adv",
    advPath := { node := [0, 0], inBehaviors := true, idx := 0 },
    parents := [{ path := [0], uuid := some "oa" }, { path := [0, 0], uuid := some "ob" }] }

/-- The entry collected from `c4New`. -/
def c4NewEntry : AdvEntry :=
  { key := "M", xml := "M", advUuid := some "n-adv",
    advPath := { node := [0, 0], inBehaviors := true, idx := 0 },
    parents := [{ path := [0], uuid := some "na" }, { path := [0, 0], uuid := some "nb" }] }

/-! ## Theorems: advanced-content lemmas -/


/-- Collecting over a directive list with no advanced directive leaves
the table unchanged. -/
theorem collectDirs_noAdv (h : String → String) (path : List Nat) (chain : List PathedNode)
    (inB : Bool) :
    ∀ (ds : List Directive), ds.any Directive.isAdvanced = false →
      ∀ i acc, collectDirs h path chain inB i ds acc = acc
  | [], _, _, _ => rfl
  | d :: ds, hna, i, acc => by
    simp only [List.any_cons, Bool.or_eq_false_iff] at hna
    simp only [collectDirs, hna.1, Bool.false_eq_true, if_false]
    exact collectDirs_noAdv h path chain inB ds hna.2 (i + 1) acc

mutual

/-- Searching a tree with no advanced directive leaves the table
unchanged. -/
theorem searchNode_noAdv (h : String → String) :
    ∀ (t : RuleTree), hasAdvanced t = false →
      ∀ path parents acc, searchNode h t path parents acc = acc
  | .node nm u bs cs ch s m, hna, path, parents, acc => by
    simp only [hasAdvanced, Bool.or_eq_false_iff] at hna
    obtain ⟨⟨hb, hc⟩, hch⟩ := hna
    simp only [searchNode]
    rw [collectDirs_noAdv h path _ true bs hb 0 acc,
      collectDirs_noAdv h path _ false cs hc 0 acc]
    exact searchChildren_noAdv h ch hch path 0 _ acc

/-- Searching children with no advanced directive leaves the table
unchanged. -/
theorem searchChildren_noAdv (h : String → String) :
    ∀ (ts : List RuleTree), hasAdvancedList ts = false →
      ∀ path i parents acc, searchChildren h ts path i parents acc = acc
  | [], _, _, _, _, _ => rfl
  | c :: cs, hna, path, i, parents, acc => by
    simp only [hasAdvancedList, Bool.or_eq_false_iff] at hna
    simp only [searchChildren]
    rw [searchNode_noAdv h c hna.1 (path ++ [i]) parents acc]
    exact searchChildren_noAdv h cs hna.2 path (i + 1) parents acc

end

/-! ## Theorems: reconciliation identity (claim C5) -/

/-- Claim C5 (confirmed): on a pair of trees in which no
`advanced`/`matchAdvanced` directive occurs anywhere, reconciliation is
the identity on the new tree — the collected table for the new tree is
empty, the merge loop runs zero iterations, and the function returns
the new tree with every node, behavior, criterion and child verbatim. -/
theorem claim_C5_identity (h : String → String) (told tnew : RuleTree)
    (ho : hasAdvanced told = false) (hn : hasAdvanced tnew = false) :
    mergeAdvancedUUIDRules h told tnew = .ok tnew := by
  have hcn : searchNode h tnew [] [] [] = [] := searchNode_noAdv h tnew hn [] [] []
  simp [mergeAdvancedUUIDRules, collect, hcn, mergeGroups]


/-- Claim C5, witness: reconciliation of two concrete advanced-free
trees returns the new tree unchanged. -/
theorem claim_C5_witness :
    mergeAdvancedUUIDRules (fun s => s) c5old c5new = .ok c5new :=
  claim_C5_identity (fun s => s) c5old c5new rfl rfl

/-! ## Theorems: payload hashing (claim C6) -/



/-- Claim C6 (code bug): the code's digest input for an advanced
directive is not the concatenation of `xml`, `openXml` and `closeXml`.
Because `+` binds tighter than `||` in JavaScript, lines 1340-1342 of
src/index.js compute `xml || ('' + openXml) || ('' + closeXml) || ''`,
so any directive with a nonempty `xml` digests to `md5(xml)` alone.
Two payloads that differ only in `openXml` therefore land in the same
hash group — under every digest function, since the digested strings
are equal — and reconciliation matches them and copies identity
tokens across genuinely different opaque content, where the spec's
concatenation digest would have put them in different groups. -/
theorem claim_C6_payload_hash :
    advancedXml c6OptOld = "A" ∧ advancedXml c6OptNew = "A" ∧
    specConcatPayload c6OptOld = "AB" ∧ specConcatPayload c6OptNew = "AC" ∧
    specConcatPayload c6OptOld ≠ specConcatPayload c6OptNew ∧
    (∀ h : String → String, mergeAdvancedUUIDRules h c6Old c6New = .ok c6Merged) := by
  refine ⟨rfl, rfl, rfl, rfl, by decide, ?_⟩
  intro h
  simp [mergeAdvancedUUIDRules, collect, searchNode, searchChildren, collectDirs,
    pushEntry, Directive.isAdvanced, advancedXml, jsCoerce, mergeGroups, mergeGroup,
    lookupGroup, setGroup, findRemoveByDepth, applyMatchWrites, writeChain,
    setNodeUuid, setDirUuid, setDirHere, setDirAt, mapChild,
    c6Old, c6New, c6Merged, c6OptOld, c6OptNew]

/-! ## Theorems: unmatched advanced metadata (claim C3) -/

/-- What `findRemoveByDepth` returns comes from the list: the matched
entry is a member of the claimed depth, and the remainder is a subset. -/
theorem findRemoveByDepth_some :
    ∀ (l : List AdvEntry) (n : Nat) (eo : AdvEntry) (rest : List AdvEntry),
      findRemoveByDepth l n = some (eo, rest) →
      eo ∈ l ∧ eo.parents.length = n ∧ ∀ x ∈ rest, x ∈ l
  | [], n, eo, rest => by simp [findRemoveByDepth]
  | e :: es, n, eo, rest => by
    simp only [findRemoveByDepth]
    by_cases hlen : e.parents.length = n
    · simp only [hlen, if_pos, Option.some.injEq, Prod.mk.injEq]
      rintro ⟨rfl, rfl⟩
      exact ⟨List.mem_cons_self e es, hlen,
        fun x hx => List.mem_cons_of_mem e hx⟩
    · simp only [hlen, if_neg, if_false]
      cases hrec : findRemoveByDepth es n with
      | none => simp
      | some p =>
        obtain ⟨f, r⟩ := p
        obtain ⟨hf, hflen, hr⟩ := findRemoveByDepth_some es n f r hrec
        simp only [Option.some.injEq, Prod.mk.injEq]
        rintro ⟨rfl, rfl⟩
        refine ⟨List.mem_cons_of_mem e hf, hflen, ?_⟩
        intro x hx
        rcases List.mem_cons.mp hx with hx | hx
        · exact hx ▸ List.mem_cons_self e es
        · exact List.mem_cons_of_mem e (hr x hx)

/-- Replacing one group by a subset of it only shrinks every group. -/
theorem lookupGroup_setGroup_subset :
    ∀ (pool : List (String × List AdvEntry)) (k : String) (es : List AdvEntry) (k' : String),
      (∀ x ∈ es, x ∈ lookupGroup pool k) →
      ∀ x ∈ lookupGroup (setGroup pool k es) k', x ∈ lookupGroup pool k'
  | [], k, es, k', _, x, hx => by simpa [setGroup, lookupGroup] using hx
  | (k0, es0) :: rest, k, es, k', hsub, x, hx => by
    by_cases hk : k0 = k
    · subst hk
      simp only [setGroup, if_pos rfl] at hx
      by_cases hk' : k0 = k'
      · subst hk'
        simp only [lookupGroup, if_pos rfl] at hx
        exact hsub x hx
      · simp only [lookupGroup, if_neg hk'] at hx ⊢
        exact hx
    · simp only [setGroup, if_neg hk] at hx
      by_cases hk' : k0 = k'
      · subst hk'
        simp only [lookupGroup, if_pos rfl] at hx ⊢
        exact hx
      · simp only [lookupGroup, if_neg hk'] at hx ⊢
        have hsub' : ∀ y ∈ es, y ∈ lookupGroup rest k := by
          intro y hy
          have hmem := hsub y hy
          simpa [lookupGroup, if_neg hk] using hmem
        exact lookupGroup_setGroup_subset rest k es k' hsub' x hx

/-- A successful group merge only consumes entries from the pool. -/
theorem mergeGroup_ok_pool_subset :
    ∀ (es : List AdvEntry) (k : String) (t : RuleTree)
      (pool : List (String × List AdvEntry)) (t' : RuleTree)
      (pool' : List (String × List AdvEntry)),
      mergeGroup k es t pool = .ok (t', pool') →
      ∀ k' x, x ∈ lookupGroup pool' k' → x ∈ lookupGroup pool k'
  | [], k, t, pool, t', pool', hok, k', x, hx => by
    simp only [mergeGroup, Except.ok.injEq, Prod.mk.injEq] at hok
    exact hok.2 ▸ hx
  | e :: es, k, t, pool, t', pool', hok, k', x, hx => by
    simp only [mergeGroup] at hok
    cases hfr : findRemoveByDepth (lookupGroup pool k) e.parents.length with
    | none => rw [hfr] at hok; exact absurd hok (by simp)
    | some p =>
      obtain ⟨eo, rest⟩ := p
      rw [hfr] at hok
      obtain ⟨-, -, hrest⟩ := findRemoveByDepth_some _ _ _ _ hfr
      have hmid := mergeGroup_ok_pool_subset es k _ _ t' pool' hok k' x hx
      exact lookupGroup_setGroup_subset pool k rest k' hrest x hmid

/-- A failed group merge always names the payload of one of the
group's new entries. -/
theorem mergeGroup_error_form :
    ∀ (es : List AdvEntry) (k : String) (t : RuleTree)
      (pool : List (String × List AdvEntry)) (msg : String),
      mergeGroup k es t pool = .error msg →
      ∃ e ∈ es, msg = unmatchedAdvancedMsg e.xml
  | [], k, t, pool, msg, herr => by simp [mergeGroup] at herr
  | e :: es, k, t, pool, msg, herr => by
    simp only [mergeGroup] at herr
    cases hfr : findRemoveByDepth (lookupGroup pool k) e.parents.length with
    | none =>
      rw [hfr] at herr
      refine ⟨e, List.mem_cons_self e es, ?_⟩
      simpa using herr.symm
    | some p =>
      obtain ⟨eo, rest⟩ := p
      rw [hfr] at herr
      obtain ⟨f, hf, hmsg⟩ := mergeGroup_error_form es k _ _ msg herr
      exact ⟨f, List.mem_cons_of_mem e hf, hmsg⟩

/-- If some new entry of a group has no equal-depth candidate among
the old entries originally collected under the group's key, the group
merge fails, naming the payload of one of the group's entries. -/
theorem mergeGroup_unmatched (pool₀ : List (String × List AdvEntry)) :
    ∀ (es : List AdvEntry) (k : String) (t : RuleTree)
      (pool : List (String × List AdvEntry)),
      (∀ x ∈ lookupGroup pool k, x ∈ lookupGroup pool₀ k) →
      (∃ e ∈ es, ∀ eo ∈ lookupGroup pool₀ k, eo.parents.length ≠ e.parents.length) →
      ∃ e ∈ es, mergeGroup k es t pool = .error (unmatchedAdvancedMsg e.xml)
  | [], k, t, pool, hsub, hex => by simp at hex
  | e :: es, k, t, pool, hsub, hex => by
    cases hfr : findRemoveByDepth (lookupGroup pool k) e.parents.length with
    | none =>
      refine ⟨e, List.mem_cons_self e es, ?_⟩
      simp [mergeGroup, hfr]
    | some p =>
      obtain ⟨eo, rest⟩ := p
      obtain ⟨heo, heolen, hrest⟩ := findRemoveByDepth_some _ _ _ _ hfr
      obtain ⟨f, hf, hfcond⟩ := hex
      rcases List.mem_cons.mp hf with rfl | hf
      · exact absurd heolen (hfcond eo (hsub eo heo))
      · have hsub' : ∀ x ∈ lookupGroup (setGroup pool k rest) k, x ∈ lookupGroup pool₀ k :=
          fun x hx => hsub x (lookupGroup_setGroup_subset pool k rest k hrest x hx)
        obtain ⟨g, hg, herr⟩ :=
          mergeGroup_unmatched pool₀ es k (applyMatchWrites e eo t)
            (setGroup pool k rest) hsub' ⟨f, hf, hfcond⟩
        refine ⟨g, List.mem_cons_of_mem e hg, ?_⟩
        simp [mergeGroup, hfr, herr]

/-- If some new entry anywhere in the work list has no equal-depth
candidate among the old entries originally collected under its group's
key, the merge loop fails, naming the payload of one of the new
entries. -/
theorem mergeGroups_unmatched (pool₀ : List (String × List AdvEntry)) :
    ∀ (gs : List (String × List AdvEntry)) (t : RuleTree)
      (pool : List (String × List AdvEntry)),
      (∀ k' x, x ∈ lookupGroup pool k' → x ∈ lookupGroup pool₀ k') →
      (∃ ke ∈ gs, ∃ e ∈ ke.2, ∀ eo ∈ lookupGroup pool₀ ke.1,
        eo.parents.length ≠ e.parents.length) →
      ∃ e, (∃ ke ∈ gs, e ∈ ke.2) ∧
        mergeGroups gs t pool = .error (unmatchedAdvancedMsg e.xml)
  | [], t, pool, hsub, hex => by simp at hex
  | (k, es) :: gs, t, pool, hsub, hex => by
    obtain ⟨ke, hke, e, he, hcond⟩ := hex
    rcases List.mem_cons.mp hke with rfl | hke
    · obtain ⟨g, hg, herr⟩ :=
        mergeGroup_unmatched pool₀ es k t pool (fun x hx => hsub k x hx) ⟨e, he, hcond⟩
      refine ⟨g, ⟨(k, es), List.mem_cons_self _ _, hg⟩, ?_⟩
      simp [mergeGroups, herr]
    · cases hmg : mergeGroup k es t pool with
      | error msg =>
        obtain ⟨g, hg, hmsg⟩ := mergeGroup_error_form es k t pool msg hmg
        refine ⟨g, ⟨(k, es), List.mem_cons_self _ _, hg⟩, ?_⟩
        simp [mergeGroups, hmg, hmsg]
      | ok p =>
        obtain ⟨t', pool'⟩ := p
        have hsub' : ∀ k' x, x ∈ lookupGroup pool' k' → x ∈ lookupGroup pool₀ k' :=
          fun k' x hx => hsub k' x (mergeGroup_ok_pool_subset es k t pool t' pool' hmg k' x hx)
        obtain ⟨g, ⟨ke', hke', hg⟩, herr⟩ :=
          mergeGroups_unmatched pool₀ gs t' pool' hsub' ⟨ke, hke, e, he, hcond⟩
        refine ⟨g, ⟨ke', List.mem_cons_of_mem _ hke', hg⟩, ?_⟩
        simp [mergeGroups, hmg, herr]

/-- Claim C3 (confirmed): whenever the new tree contains an
`advanced`/`matchAdvanced` directive whose payload digest matches no
old-tree entry of equal ancestor depth, reconciliation fails with the
`Cannot find Advanced Metadata ...` error, whose message names the
offending payload content of one of the collected new entries; the
function returns no tree, so no uuid is ever invented for the
unmatched directive. -/
theorem claim_C3_unmatched (h : String → String) (told tnew : RuleTree)
    (hex : ∃ ke ∈ collect h tnew, ∃ e ∈ ke.2,
      ∀ eo ∈ lookupGroup (collect h told) ke.1, eo.parents.length ≠ e.parents.length) :
    ∃ e, (∃ ke ∈ collect h tnew, e ∈ ke.2) ∧
      mergeAdvancedUUIDRules h told tnew = .error (unmatchedAdvancedMsg e.xml) := by
  obtain ⟨e, he, herr⟩ :=
    mergeGroups_unmatched (collect h told) (collect h tnew) tnew (collect h told)
      (fun k' x hx => hx) hex
  refine ⟨e, he, ?_⟩
  unfold mergeAdvancedUUIDRules
  rw [herr]




/-- Claim C3, witness: reconciling the concrete pair fails with the
unmatched-metadata error naming the offending payload. -/
theorem claim_C3_witness :
    ∃ e, (∃ ke ∈ collect (fun s => s) c3New, e ∈ ke.2) ∧
      mergeAdvancedUUIDRules (fun s => s) c3Old c3New =
        .error (unmatchedAdvancedMsg e.xml) := by
  refine claim_C3_unmatched (fun s => s) c3Old c3New ?_
  refine ⟨("P", [c3entry]), by decide, c3entry, List.mem_singleton.mpr rfl, ?_⟩
  have hemp : lookupGroup (collect (fun s => s) c3Old) "P" = [] := rfl
  intro eo heo
  rw [hemp] at heo
  exact absurd heo (List.not_mem_nil eo)

/-! ## Theorems: lookup cache (claims C7 and C8) -/


/-- Claim C7, counterexample: the passthrough check of `_getProperty`
probes the field `propertyId`, not `id`, so the record literal
`{id:"prp_1", groupId:"grp_1", contractId:"ctr_1"}` is not passed
through: the check fails and the code falls through to
`propertyLookup.replace(...)`, which throws a `TypeError` on a
non-string. -/
theorem claim_C7_counterexample :
    getPropertyHead (.record c7record) = GetPropOutcome.typeError ∧
    getPropertyHead (.record c7record) ≠ GetPropOutcome.passthrough c7record := by
  constructor
  · rfl
  · decide

/-- Claim C7 (corrected): for every lookup key that is a record with
truthy `propertyId`, `groupId` and `contractId` fields, `_getProperty`
returns that very record, before the cache is initialized or read —
an idempotent passthrough with no side effects on the cache.  The
spec's record literal spells the property id under the key `id`, which
the code does not probe, so that particular literal is not passed
through (see the counterexample). -/
theorem claim_C7_passthrough (r : PropertyRecord)
    (hp : truthy r.propertyId = true)
    (hg : truthy r.groupId = true)
    (hc : truthy r.contractId = true) :
    getPropertyHead (.record r) = GetPropOutcome.passthrough r := by
  simp [getPropertyHead, hp, hg, hc]

/-- Claim C7, witness: a record carrying the three probed fields is
passed through unchanged. -/
theorem claim_C7_witness :
    getPropertyHead
        (.record { id := none, propertyId := some "prp_1", groupId := some "grp_1",
                   contractId := some "ctr_1" }) =
      GetPropOutcome.passthrough
        { id := none, propertyId := some "prp_1", groupId := some "grp_1",
          contractId := some "ctr_1" } :=
  claim_C7_passthrough _ (by decide) (by decide) (by decide)

/-- Claim C8, counterexample: the sanitizer replaces characters outside
`[A-Za-z0-9_.-]` with underscores, and `.` is inside the class, so
`"my example.com"` sanitizes to `"my_example.com"`, not to the claimed
`"my_example_com"`. -/
theorem claim_C8_counterexample :
    getPropertyHead (.str "my example.com") = GetPropOutcome.continueWith "my_example.com" ∧
    "my_example.com" ≠ "my_example_com" := by
  constructor
  · rfl
  · decide

/-- Claim C8 (corrected): resolving the string key `"my example.com"`
runs `propertyLookup.replace(/[^\w.-]/gi, '_')`, so the space becomes
an underscore while the dots are preserved: the key is indexed and
matched as `"my_example.com"`. -/
theorem claim_C8_sanitization :
    sanitizeLookup "my example.com" = "my_example.com" ∧
    getPropertyHead (.str "my example.com") = GetPropOutcome.continueWith "my_example.com" := by
  constructor
  · rfl
  · rfl

/-! ## Theorems: deactivation (claim C9) -/

/-- Claim C9 (confirmed): deactivating a version that is not active on
the target network — the service answers outside the `[200, 400]`
success range with a body mentioning `property_version_not_active` —
resolves successfully instead of rejecting, and `_deactivateProperty`
always issues exactly one request: it has no warning-acknowledgment
resubmission loop. -/
theorem claim_C9_idempotent_deactivation :
    (∀ r rest, ¬(200 ≤ r.statusCode ∧ r.statusCode ≤ 400) →
      hasSubstr r.body "property_version_not_active" = true →
      deactivateProperty (r :: rest) = (DeactResult.resolvedIdempotent, 1)) ∧
    (∀ script, (deactivateProperty script).2 = 1) := by
  constructor
  · intro r rest hs hb
    simp [deactivateProperty, deactivateStep, hs, hb]
  · intro script
    cases script <;> rfl

/-- Claim C9, witness: a 422 response whose body names
`property_version_not_active` resolves idempotently. -/
theorem claim_C9_witness :
    deactivateProperty
        [{ statusCode := 422,
           body := "version is property_version_not_active on this network",
           activationLink := none }] =
      (DeactResult.resolvedIdempotent, 1) :=
  claim_C9_idempotent_deactivation.1 _ [] (by decide) (by decide)

/-! ## Theorems: activation warning retry (claim C1) -/

/-- Claim C1, counterexample: scripted against a first response
reporting two unacknowledged warnings, a second response reporting a
distinct warning set, and a third response carrying the activation
link, `_activateProperty` issues three POSTs — the empty initial
acknowledgment, the resubmission acknowledging both collected ids, and
a further resubmission acknowledging the second set — and resolves,
instead of failing outright when the second distinct warning set
appears. -/
theorem claim_C1_counterexample :
    activateProperty
        [{ statusCode := 400,
           type := some "https://problems.luna.akamaiapis.net/papi/v1/warnings-not-acknowledged",
           warnings := ["msg_1", "msg_2"], activationLink := none },
         { statusCode := 400,
           type := some "https://problems.luna.akamaiapis.net/papi/v1/warnings-not-acknowledged",
           warnings := ["msg_3"], activationLink := none },
         { statusCode := 201, type := none, warnings := [],
           activationLink := some "/papi/v1/properties/prp_1/activations/atv_3?contractId=ctr_1" }]
        [] [] =
      ActResult.resolved "atv_3" [[], ["msg_1", "msg_2"], ["msg_3"]] := by
  rfl

/-- Claim C1 (corrected): on every activation response whose body type
contains `warnings-not-acknowledged`, `_activateProperty` collects the
reported warning ids and resubmits the same request with exactly those
ids acknowledged — and it does so with no retry ceiling: when the
resubmission reports a second distinct warning set, the code
resubmits yet again (acknowledging only the newest set) rather than
failing outright.  The source marks the missing ceiling with
`TODO: check that this doesn't happen more than once...`. -/
theorem claim_C1_warning_retry :
    (∀ r rest acks sent, 200 ≤ r.statusCode → r.statusCode ≤ 400 →
      warnNotAcked r.type = true →
      activateProperty (r :: rest) acks sent =
        activateProperty rest r.warnings (sent ++ [acks])) ∧
    (∀ r1 r2 rest acks, 200 ≤ r1.statusCode → r1.statusCode ≤ 400 →
      warnNotAcked r1.type = true →
      200 ≤ r2.statusCode → r2.statusCode ≤ 400 →
      warnNotAcked r2.type = true →
      activateProperty (r1 :: r2 :: rest) acks [] =
        activateProperty rest r2.warnings [acks, r1.warnings]) := by
  have hstep : ∀ r rest acks sent, 200 ≤ r.statusCode → r.statusCode ≤ 400 →
      warnNotAcked r.type = true →
      activateProperty (r :: rest) acks sent =
        activateProperty rest r.warnings (sent ++ [acks]) := by
    intro r rest acks sent h1 h2 hw
    simp [activateProperty, h1, h2, hw]
  refine ⟨hstep, ?_⟩
  intro r1 r2 rest acks h11 h12 hw1 h21 h22 hw2
  rw [hstep r1 (r2 :: rest) acks [] h11 h12 hw1,
    hstep r2 rest r1.warnings ([] ++ [acks]) h21 h22 hw2]
  rfl

/-- Claim C1, witness: both conjuncts applied to concrete warning
responses. -/
theorem claim_C1_witness :
    (activateProperty
        [{ statusCode := 400, type := some "warnings-not-acknowledged",
           warnings := ["msg_1", "msg_2"], activationLink := none }]
        [] [] =
      activateProperty [] ["msg_1", "msg_2"] [[]]) ∧
    (activateProperty
        [{ statusCode := 400, type := some "warnings-not-acknowledged",
           warnings := ["msg_1", "msg_2"], activationLink := none },
         { statusCode := 400, type := some "warnings-not-acknowledged",
           warnings := ["msg_3"], activationLink := none }]
        [] [] =
      activateProperty [] ["msg_3"] [[], ["msg_1", "msg_2"]]) :=
  ⟨claim_C1_warning_retry.1 _ [] [] [] (by decide) (by decide) (by decide),
   claim_C1_warning_retry.2 _ _ [] [] (by decide) (by decide) (by decide)
     (by decide) (by decide) (by decide)⟩

/-! ## Theorems: activation polling (claim C2) -/

/-- Folding `pollFlagStep` keeps `pending` equal to "some item seen so
far, or the seed, is not `ACTIVE`". -/
theorem foldl_pollFlagStep_fst (items : List String) (p a : Bool) :
    (items.foldl pollFlagStep (p, a)).1 =
      (p || items.any (fun st => decide (st ≠ "ACTIVE"))) := by
  induction items generalizing p a with
  | nil => simp
  | cons st rest ih =>
    simp only [List.foldl_cons, List.any_cons, pollFlagStep]
    rw [ih]
    cases p <;> simp [Bool.or_assoc]

/-- The `pending` flag is set exactly when some item is not `ACTIVE`. -/
theorem pollFlags_fst (items : List String) :
    (pollFlags items).1 = items.any (fun st => decide (st ≠ "ACTIVE")) := by
  simpa using foldl_pollFlagStep_fst items false false

/-- With every item `ACTIVE`, folding `pollFlagStep` from a clear
`pending` flag ends with `pending` clear and `active` set as soon as
one item has been seen. -/
theorem foldl_pollFlagStep_allActive (items : List String)
    (hall : ∀ st ∈ items, st = "ACTIVE") (a : Bool) :
    items.foldl pollFlagStep (false, a) = (false, if items.isEmpty then a else true) := by
  induction items generalizing a with
  | nil => simp
  | cons st rest ih =>
    have hst : st = "ACTIVE" := hall st (List.mem_cons_self st rest)
    have hrest : ∀ st ∈ rest, st = "ACTIVE" := fun x hx => hall x (List.mem_cons_of_mem st hx)
    simp only [List.foldl_cons, pollFlagStep, hst]
    simpa using ih hrest true

/-- A nonempty all-`ACTIVE` item list yields `(pending, active) = (false, true)`. -/
theorem pollFlags_allActive (items : List String) (hne : items ≠ [])
    (hall : ∀ st ∈ items, st = "ACTIVE") :
    pollFlags items = (false, true) := by
  rw [pollFlags, foldl_pollFlagStep_allActive items hall false]
  simp [List.isEmpty_iff, hne]

/-- Claim C2, counterexample: a first poll whose items resolve to the
terminal status `FAILED` does not reject with the raw payload — any
non-`ACTIVE` status sets the code's `pending` flag, so the loop sleeps
30000 units and polls again, here resolving `true` from the second
scripted response. -/
theorem claim_C2_counterexample :
    pollActivation
        [{ statusCode := 200, jsonContentType := true, items := ["FAILED"] },
         { statusCode := 200, jsonContentType := true, items := ["ACTIVE"] }] =
      (PollResult.resolvedTrue, 2, 30000) := by
  rfl

/-- Claim C2 (corrected): `_pollActivation` keeps polling, with a
30000-unit sleep between polls, while any activation item's status is
not `ACTIVE` — including the terminal values `FAILED` and `ABORTED`,
which therefore never reject (see the counterexample); a remote 500
response is mapped to a single synthetic `PENDING` item and retried;
the scripted sequence `[PENDING, PENDING, ACTIVE]` resolves `true` on
the third poll after two sleeps; and the rejection carrying the raw
activation payload fires only when a poll resolves to an empty item
list. -/
theorem claim_C2_polling :
    (∀ r rest items, pollStep r = .ok items →
      (∃ st ∈ items, st ≠ "ACTIVE") →
      pollActivation (r :: rest) =
        ((pollActivation rest).1, (pollActivation rest).2.1 + 1,
          (pollActivation rest).2.2 + 30000)) ∧
    (∀ (jsonCT : Bool) (items : List String),
      pollStep { statusCode := 500, jsonContentType := jsonCT, items := items } =
        .ok ["PENDING"]) ∧
    (∀ r rest items, pollStep r = .ok items → items ≠ [] →
      (∀ st ∈ items, st = "ACTIVE") →
      pollActivation (r :: rest) = (PollResult.resolvedTrue, 1, 0)) ∧
    (pollActivation
        [{ statusCode := 200, jsonContentType := true, items := ["PENDING"] },
         { statusCode := 200, jsonContentType := true, items := ["PENDING"] },
         { statusCode := 200, jsonContentType := true, items := ["ACTIVE"] }] =
      (PollResult.resolvedTrue, 3, 60000)) ∧
    (∀ r rest, pollStep r = .ok [] →
      pollActivation (r :: rest) = (PollResult.rejectedPayload [], 1, 0)) := by
  refine ⟨?_, ?_, ?_, ?_, ?_⟩
  · intro r rest items hstep hex
    have hp : (pollFlags items).1 = true := by
      rw [pollFlags_fst]
      rcases hex with ⟨st, hmem, hne⟩
      exact List.any_eq_true.mpr ⟨st, hmem, by simpa using hne⟩
    simp [pollActivation, hstep, hp]
  · intro jsonCT items
    simp [pollStep]
  · intro r rest items hstep hne hall
    have hfl : pollFlags items = (false, true) := pollFlags_allActive items hne hall
    simp [pollActivation, hstep, hfl]
  · rfl
  · intro r rest hstep
    have hfl : pollFlags ([] : List String) = (false, false) := rfl
    simp [pollActivation, hstep, hfl]

/-- Claim C2, witness: the polling step equations at concrete scripted
responses. -/
theorem claim_C2_witness :
    (pollActivation
        [{ statusCode := 200, jsonContentType := true, items := ["PENDING"] },
         { statusCode := 200, jsonContentType := true, items := ["ACTIVE"] }] =
      ((pollActivation [{ statusCode := 200, jsonContentType := true, items := ["ACTIVE"] }]).1,
        (pollActivation [{ statusCode := 200, jsonContentType := true, items := ["ACTIVE"] }]).2.1 + 1,
        (pollActivation [{ statusCode := 200, jsonContentType := true, items := ["ACTIVE"] }]).2.2 + 30000)) ∧
    (pollActivation [{ statusCode := 200, jsonContentType := true, items := ["ACTIVE"] }] =
      (PollResult.resolvedTrue, 1, 0)) ∧
    (pollActivation [{ statusCode := 200, jsonContentType := true, items := [] }] =
      (PollResult.rejectedPayload [], 1, 0)) :=
  ⟨claim_C2_polling.1 _ _ ["PENDING"] rfl ⟨"PENDING", by decide, by decide⟩,
   claim_C2_polling.2.2.1 _ [] ["ACTIVE"] rfl (by decide) (by decide),
   claim_C2_polling.2.2.2.2 _ [] rfl⟩

/-! ## Theorems: path reads against uuid writes (claim C4 groundwork) -/

/-- Modifying the `i`-th child touches exactly position `i`. -/
theorem get_mapChild (f : RuleTree → RuleTree) :
    ∀ (ts : List RuleTree) (i j : Nat),
      (mapChild f ts i).get? j = if i = j then (ts.get? j).map f else ts.get? j
  | [], i, j => by cases i <;> cases j <;> simp [mapChild]
  | c :: cs, 0, 0 => by simp [mapChild]
  | c :: cs, 0, j + 1 => by simp [mapChild]
  | c :: cs, i + 1, 0 => by simp [mapChild]
  | c :: cs, i + 1, j + 1 => by
    simp only [mapChild, List.get?_cons_succ]
    rw [get_mapChild f cs i j]
    by_cases hij : i = j <;> simp [hij]

/-- Reading back the uuid written at a live path. -/
theorem nodeAt_setNodeUuid_self :
    ∀ (p : List Nat) (u : Option String) (t : RuleTree),
      (nodeAt p t).isSome →
      (nodeAt p (setNodeUuid p u t)).map RuleTree.uuid = some u
  | [], u, .node nm u0 bs cs ch s m, _ => by
    simp [nodeAt, setNodeUuid, RuleTree.uuid]
  | i :: p, u, .node nm u0 bs cs ch s m, hs => by
    simp only [nodeAt, setNodeUuid] at hs ⊢
    rw [get_mapChild]
    simp only [if_pos rfl]
    cases hg : ch.get? i with
    | none => rw [hg] at hs; simp at hs
    | some c =>
      rw [hg] at hs
      simpa using nodeAt_setNodeUuid_self p u c hs

/-- A uuid write at one path leaves the uuid read at any other path
unchanged. -/
theorem nodeAt_setNodeUuid_other :
    ∀ (q p : List Nat) (u : Option String) (t : RuleTree), p ≠ q →
      (nodeAt p (setNodeUuid q u t)).map RuleTree.uuid =
        (nodeAt p t).map RuleTree.uuid
  | [], p, u, .node nm u0 bs cs ch s m, hne => by
    cases p with
    | nil => exact absurd rfl hne
    | cons i p => simp [nodeAt, setNodeUuid]
  | j :: q, p, u, .node nm u0 bs cs ch s m, hne => by
    cases p with
    | nil => simp [nodeAt, setNodeUuid, RuleTree.uuid]
    | cons i p =>
      simp only [nodeAt, setNodeUuid]
      rw [get_mapChild]
      by_cases hij : j = i
      · subst hij
        simp only [if_pos rfl]
        cases hg : ch.get? j with
        | none => simp
        | some c =>
          have hne' : p ≠ q := fun hp => hne (by rw [hp])
          simpa using nodeAt_setNodeUuid_other q p u c hne'
      · simp [hij]

/-- A uuid write never changes the directive lists visible at any
path. -/
theorem nodeAt_setNodeUuid_dirs :
    ∀ (q : List Nat) (u : Option String) (t : RuleTree) (p : List Nat),
      ((nodeAt p (setNodeUuid q u t)).map fun n => (RuleTree.behaviors n, RuleTree.criteria n)) =
        ((nodeAt p t).map fun n => (RuleTree.behaviors n, RuleTree.criteria n))
  | [], u, .node nm u0 bs cs ch s m, p => by
    cases p with
    | nil => simp [nodeAt, setNodeUuid, RuleTree.behaviors, RuleTree.criteria]
    | cons i p => simp [nodeAt, setNodeUuid]
  | j :: q, u, .node nm u0 bs cs ch s m, p => by
    cases p with
    | nil => simp [nodeAt, setNodeUuid, RuleTree.behaviors, RuleTree.criteria]
    | cons i p =>
      simp only [nodeAt, setNodeUuid]
      rw [get_mapChild]
      by_cases hij : j = i
      · subst hij
        simp only [if_pos rfl]
        cases hg : ch.get? j with
        | none => simp
        | some c => simpa using nodeAt_setNodeUuid_dirs q u c p
      · simp [hij]

/-- A node-uuid write never changes any directive read. -/
theorem dirAt_setNodeUuid (q : List Nat) (u : Option String) (t : RuleTree) (dp : DirPath) :
    dirAt dp (setNodeUuid q u t) = dirAt dp t := by
  have hd := nodeAt_setNodeUuid_dirs q u t dp.node
  unfold dirAt
  cases h1 : nodeAt dp.node (setNodeUuid q u t) with
  | none =>
    cases h2 : nodeAt dp.node t with
    | none => simp
    | some n2 => rw [h1, h2] at hd; simp at hd
  | some n1 =>
    cases h2 : nodeAt dp.node t with
    | none => rw [h1, h2] at hd; simp at hd
    | some n2 =>
      rw [h1, h2] at hd
      simp only [Option.map_some', Option.some.injEq, Prod.mk.injEq] at hd
      cases hb : dp.inBehaviors <;> simp [hb, hd.1, hd.2]

/-- A directive-uuid write never changes any node-uuid read. -/
theorem nodeAt_setDirUuid_uuid :
    ∀ (q : List Nat) (b : Bool) (j : Nat) (u : Option String) (t : RuleTree) (p : List Nat),
      (nodeAt p (setDirUuid q b j u t)).map RuleTree.uuid =
        (nodeAt p t).map RuleTree.uuid
  | [], b, j, u, .node nm u0 bs cs ch s m, p => by
    cases p with
    | nil => cases b <;> simp [nodeAt, setDirUuid, setDirHere, RuleTree.uuid]
    | cons i p => cases b <;> simp [nodeAt, setDirUuid, setDirHere]
  | i0 :: q, b, j, u, .node nm u0 bs cs ch s m, p => by
    cases p with
    | nil => simp [nodeAt, setDirUuid, RuleTree.uuid]
    | cons i p =>
      simp only [nodeAt, setDirUuid]
      rw [get_mapChild]
      by_cases hij : i0 = i
      · subst hij
        simp only [if_pos rfl]
        cases hg : ch.get? i0 with
        | none => simp
        | some c => simpa using nodeAt_setDirUuid_uuid q b j u c p
      · simp [hij]

/-- Pushing a directive-uuid write down to its owner node. -/
theorem nodeAt_setDirUuid_here :
    ∀ (p : List Nat) (b : Bool) (j : Nat) (u : Option String) (t n : RuleTree),
      nodeAt p t = some n →
      nodeAt p (setDirUuid p b j u t) = some (setDirHere b j u n)
  | [], b, j, u, t, n, hat => by
    simp only [nodeAt, Option.some.injEq] at hat
    subst hat
    rfl
  | i :: p, b, j, u, .node nm u0 bs cs ch s m, n, hat => by
    simp only [nodeAt] at hat ⊢
    rw [get_mapChild]
    simp only [if_pos rfl]
    cases hg : ch.get? i with
    | none => rw [hg] at hat; simp at hat
    | some c =>
      rw [hg] at hat
      simpa using nodeAt_setDirUuid_here p b j u c n hat

/-- Writing the `j`-th directive's uuid touches exactly position `j`. -/
theorem get_setDirAt :
    ∀ (ds : List Directive) (i j : Nat) (u : Option String),
      (setDirAt ds i u).get? j =
        if i = j then (ds.get? j).map (fun d => { d with uuid := u }) else ds.get? j
  | [], i, j, u => by cases i <;> cases j <;> simp [setDirAt]
  | d :: ds, 0, 0, u => by simp [setDirAt]
  | d :: ds, 0, j + 1, u => by simp [setDirAt]
  | d :: ds, i + 1, 0, u => by simp [setDirAt]
  | d :: ds, i + 1, j + 1, u => by
    simp only [setDirAt, List.get?_cons_succ]
    rw [get_setDirAt ds i j u]
    by_cases hij : i = j <;> simp [hij]

/-- Reading a directive back from its owner node after a
`setDirHere` write. -/
theorem setDirHere_read (b : Bool) (j : Nat) (u : Option String) (n : RuleTree) :
    (if b then (setDirHere b j u n).behaviors else (setDirHere b j u n).criteria).get? j =
      ((if b then n.behaviors else n.criteria).get? j).map (fun d => { d with uuid := u }) := by
  obtain ⟨nm, u0, bs, cs, ch, s, m⟩ := n
  cases b
  · simp only [setDirHere, RuleTree.criteria, Bool.false_eq_true, if_false]
    simpa using get_setDirAt cs j j u
  · simp only [setDirHere, RuleTree.behaviors, if_true]
    simpa using get_setDirAt bs j j u

/-- Reading back the directive uuid written at a live address. -/
theorem dirAt_setDirUuid_self (dp : DirPath) (u : Option String) (t : RuleTree)
    (hs : (dirAt dp t).isSome) :
    (dirAt dp (setDirUuid dp.node dp.inBehaviors dp.idx u t)).map Directive.uuid = some u := by
  unfold dirAt at hs ⊢
  cases h : nodeAt dp.node t with
  | none => rw [h] at hs; simp at hs
  | some n =>
    rw [h] at hs
    rw [nodeAt_setDirUuid_here dp.node dp.inBehaviors dp.idx u t n h]
    simp only [Option.some_bind] at hs ⊢
    rw [setDirHere_read]
    cases hg : (if dp.inBehaviors then n.behaviors else n.criteria).get? dp.idx with
    | none => rw [hg] at hs; simp at hs
    | some d => simp

/-- A chain of writes at paths all different from `p` leaves the uuid
read at `p` unchanged. -/
theorem writeChain_uuid_other :
    ∀ (pairs : List (PathedNode × PathedNode)) (t : RuleTree) (p : List Nat),
      (∀ pq ∈ pairs, p ≠ pq.1.path) →
      (nodeAt p (writeChain pairs t)).map RuleTree.uuid = (nodeAt p t).map RuleTree.uuid
  | [], t, p, _ => rfl
  | (pn, po) :: rest, t, p, hne => by
    simp only [writeChain]
    rw [writeChain_uuid_other rest _ p
      (fun pq hpq => hne pq (List.mem_cons_of_mem _ hpq))]
    exact nodeAt_setNodeUuid_other pn.path p po.uuid t
      (hne (pn, po) (List.mem_cons_self _ _))

/-- A chain of node-uuid writes never changes any directive read. -/
theorem writeChain_dirs :
    ∀ (pairs : List (PathedNode × PathedNode)) (t : RuleTree) (dp : DirPath),
      dirAt dp (writeChain pairs t) = dirAt dp t
  | [], t, dp => rfl
  | (pn, po) :: rest, t, dp => by
    simp only [writeChain]
    rw [writeChain_dirs rest _ dp, dirAt_setNodeUuid]

/-- After a chain of writes at pairwise distinct live paths, each
written path reads back the uuid written there. -/
theorem writeChain_read :
    ∀ (pairs : List (PathedNode × PathedNode)) (t : RuleTree),
      pairs.Pairwise (fun a b => a.1.path ≠ b.1.path) →
      (∀ pq ∈ pairs, (nodeAt pq.1.path t).isSome) →
      ∀ pq ∈ pairs,
        (nodeAt pq.1.path (writeChain pairs t)).map RuleTree.uuid = some pq.2.uuid
  | [], t, _, _, pq, hpq => absurd hpq (List.not_mem_nil pq)
  | (pn, po) :: rest, t, hpw, hsome, pq, hpq => by
    have hhead := List.pairwise_cons.mp hpw
    simp only [writeChain]
    rcases List.mem_cons.mp hpq with rfl | hpq
    · rw [writeChain_uuid_other rest _ pn.path
        (fun pq' hpq' => (hhead.1 pq' hpq'))]
      exact nodeAt_setNodeUuid_self pn.path po.uuid t
        (hsome (pn, po) (List.mem_cons_self _ _))
    · apply writeChain_read rest _ hhead.2 ?_ pq hpq
      intro pq' hpq'
      have hne : pq'.1.path ≠ pn.path := fun hp => hhead.1 pq' hpq' hp.symm
      have hpres := nodeAt_setNodeUuid_other pn.path pq'.1.path po.uuid t hne
      have hsome' := hsome pq' (List.mem_cons_of_mem _ hpq')
      cases hcase : nodeAt pq'.1.path (setNodeUuid pn.path po.uuid t) with
      | some n => rfl
      | none =>
        rw [hcase] at hpres
        simp only [Option.map_none'] at hpres
        have hnone : nodeAt pq'.1.path t = none := Option.map_eq_none'.mp hpres.symm
        rw [hnone] at hsome'
        simp at hsome'

/-! ## Theorems: collection-time validity (claim C4 groundwork) -/

/-- Every group member of a `pushEntry` result is either a member of
an existing group of the table or the pushed entry itself. -/
theorem pushEntry_mem :
    ∀ (acc : Found) (e : AdvEntry) (k : String) (es : List AdvEntry) (x : AdvEntry),
      (k, es) ∈ pushEntry acc e → x ∈ es →
      (∃ es0, (k, es0) ∈ acc ∧ x ∈ es0) ∨ x = e
  | [], e, k, es, x, hke, hx => by
    simp only [pushEntry, List.mem_singleton, Prod.mk.injEq] at hke
    obtain ⟨rfl, rfl⟩ := hke
    right
    simpa using hx
  | (k0, es0) :: rest, e, k, es, x, hke, hx => by
    by_cases hk0 : k0 = e.key
    · simp only [pushEntry, if_pos hk0] at hke
      rcases List.mem_cons.mp hke with heq | hke'
      · obtain ⟨rfl, rfl⟩ := Prod.mk.injEq .. ▸ heq
        rcases List.mem_append.mp hx with hx | hx
        · exact Or.inl ⟨es0, List.mem_cons_self _ _, hx⟩
        · right; simpa using hx
      · exact Or.inl ⟨es, List.mem_cons_of_mem _ hke', hx⟩
    · simp only [pushEntry, if_neg hk0] at hke
      rcases List.mem_cons.mp hke with heq | hke'
      · obtain ⟨rfl, rfl⟩ := Prod.mk.injEq .. ▸ heq
        exact Or.inl ⟨es, List.mem_cons_self _ _, hx⟩
      · rcases pushEntry_mem rest e k es x hke' hx with ⟨es1, h1, h2⟩ | h
        · exact Or.inl ⟨es1, List.mem_cons_of_mem _ h1, h2⟩
        · exact Or.inr h

/-- Pushing a valid entry preserves table validity. -/
theorem FoundOk_pushEntry (root : RuleTree) (acc : Found) (e : AdvEntry)
    (hacc : FoundOk root acc) (he : EntryOk root e) :
    FoundOk root (pushEntry acc e) := by
  intro ke hke x hx
  obtain ⟨k, es⟩ := ke
  rcases pushEntry_mem acc e k es x hke hx with ⟨es1, h1, h2⟩ | rfl
  · exact hacc (k, es1) h1 x h2
  · exact he

/-- Collecting a directive list with live addresses and a valid chain
preserves table validity. -/
theorem collectDirs_ok (root : RuleTree) (h : String → String) (path : List Nat)
    (chain : List PathedNode) (inB : Bool)
    (hreads : ∀ pn ∈ chain, (nodeAt pn.path root).map RuleTree.uuid = some pn.uuid)
    (hpw : chain.Pairwise (fun a b => a.path.length < b.path.length)) :
    ∀ (ds : List Directive) (i : Nat) (acc : Found),
      (∀ k d, ds.get? k = some d →
        dirAt { node := path, inBehaviors := inB, idx := i + k } root = some d) →
      FoundOk root acc → FoundOk root (collectDirs h path chain inB i ds acc)
  | [], _, _, _, hacc => hacc
  | d :: ds, i, acc, hds, hacc => by
    have hrec : ∀ k d', ds.get? k = some d' →
        dirAt { node := path, inBehaviors := inB, idx := (i + 1) + k } root = some d' := by
      intro k d' hk
      have hr := hds (k + 1) d' (by simpa using hk)
      have harith : i + (k + 1) = (i + 1) + k := by omega
      rwa [harith] at hr
    simp only [collectDirs]
    by_cases hadv : d.isAdvanced
    · rw [if_pos hadv]
      apply collectDirs_ok root h path chain inB hreads hpw ds (i + 1) _ hrec
      apply FoundOk_pushEntry root acc _ hacc
      have h0 : dirAt { node := path, inBehaviors := inB, idx := i } root = some d := hds 0 d rfl
      exact ⟨by simp [h0], hreads, hpw⟩
    · rw [if_neg hadv]
      exact collectDirs_ok root h path chain inB hreads hpw ds (i + 1) acc hrec hacc

/-- Extending a path by one child index steps through `children`. -/
theorem nodeAt_snoc :
    ∀ (p : List Nat) (i : Nat) (t : RuleTree),
      nodeAt (p ++ [i]) t = (nodeAt p t).bind (fun n => n.children.get? i)
  | [], i, .node nm u bs cs ch s m => by
    simp only [List.nil_append, nodeAt, Option.some_bind, RuleTree.children]
    cases ch.get? i <;> simp
  | j :: p, i, .node nm u bs cs ch s m => by
    simp only [List.cons_append, nodeAt]
    cases hg : ch.get? j with
    | none => simp
    | some c => simpa using nodeAt_snoc p i c

mutual

/-- The search over one live node preserves table validity. -/
theorem searchNode_ok (root : RuleTree) (h : String → String) :
    ∀ (t : RuleTree) (path : List Nat) (parents : List PathedNode) (acc : Found),
      nodeAt path root = some t →
      ChainOk root parents path.length →
      FoundOk root acc →
      FoundOk root (searchNode h t path parents acc)
  | .node nm u bs cs ch s m, path, parents, acc, hat, hch, hacc => by
    obtain ⟨hreads, hpw, hbound⟩ := hch
    simp only [searchNode]
    have hchainOk :
        (∀ pn ∈ (if u ≠ some "default" then parents ++ [⟨path, u⟩] else parents),
          (nodeAt pn.path root).map RuleTree.uuid = some pn.uuid) ∧
        (if u ≠ some "default" then parents ++ [⟨path, u⟩] else parents).Pairwise
          (fun a b => a.path.length < b.path.length) ∧
        (∀ pn ∈ (if u ≠ some "default" then parents ++ [⟨path, u⟩] else parents),
          pn.path.length < path.length + 1) := by
      by_cases hd : u ≠ some "default"
      · simp only [if_pos hd]
        refine ⟨?_, ?_, ?_⟩
        · intro pn hpn
          rcases List.mem_append.mp hpn with hpn | hpn
          · exact hreads pn hpn
          · simp only [List.mem_singleton] at hpn
            subst hpn
            rw [hat]
            rfl
        · rw [List.pairwise_append]
          refine ⟨hpw, List.pairwise_singleton _ _, ?_⟩
          intro a ha b hb
          simp only [List.mem_singleton] at hb
          subst hb
          exact hbound a ha
        · intro pn hpn
          rcases List.mem_append.mp hpn with hpn | hpn
          · exact Nat.lt_succ_of_lt (hbound pn hpn)
          · simp only [List.mem_singleton] at hpn
            subst hpn
            exact Nat.lt_succ_self _
      · simp only [if_neg hd]
        exact ⟨hreads, hpw, fun pn hpn => Nat.lt_succ_of_lt (hbound pn hpn)⟩
    have hbs : ∀ k d, bs.get? k = some d →
        dirAt { node := path, inBehaviors := true, idx := 0 + k } root = some d := by
      intro k d hk
      have h0 : dirAt { node := path, inBehaviors := true, idx := k } root = some d := by
        simpa [dirAt, hat, RuleTree.behaviors] using hk
      simpa [Nat.zero_add] using h0
    have hcs : ∀ k d, cs.get? k = some d →
        dirAt { node := path, inBehaviors := false, idx := 0 + k } root = some d := by
      intro k d hk
      have h0 : dirAt { node := path, inBehaviors := false, idx := k } root = some d := by
        simpa [dirAt, hat, RuleTree.criteria] using hk
      simpa [Nat.zero_add] using h0
    have hkids : ∀ k c, ch.get? k = some c → nodeAt (path ++ [0 + k]) root = some c := by
      intro k c hk
      rw [Nat.zero_add, nodeAt_snoc, hat]
      simpa [RuleTree.children] using hk
    exact searchChildren_ok root h ch path 0 _ _ hchainOk
      (collectDirs_ok root h path _ false hchainOk.1 hchainOk.2.1 cs 0 _ hcs
        (collectDirs_ok root h path _ true hchainOk.1 hchainOk.2.1 bs 0 acc hbs hacc))
      hkids

/-- The search over a live child list preserves table validity. -/
theorem searchChildren_ok (root : RuleTree) (h : String → String) :
    ∀ (ts : List RuleTree) (path : List Nat) (i : Nat) (chain : List PathedNode) (acc : Found),
      ((∀ pn ∈ chain, (nodeAt pn.path root).map RuleTree.uuid = some pn.uuid) ∧
        chain.Pairwise (fun a b => a.path.length < b.path.length) ∧
        (∀ pn ∈ chain, pn.path.length < path.length + 1)) →
      FoundOk root acc →
      (∀ k c, ts.get? k = some c → nodeAt (path ++ [i + k]) root = some c) →
      FoundOk root (searchChildren h ts path i chain acc)
  | [], _, _, _, _, _, hacc, _ => hacc
  | c :: cs, path, i, chain, acc, hch, hacc, hts => by
    simp only [searchChildren]
    have hat0 : nodeAt (path ++ [i]) root = some c := hts 0 c rfl
    have hch' : ChainOk root chain (path ++ [i]).length := by
      have hlen : (path ++ [i]).length = path.length + 1 := by simp
      rw [hlen]
      exact ⟨hch.1, hch.2.1, hch.2.2⟩
    have hinner : FoundOk root (searchNode h c (path ++ [i]) chain acc) :=
      searchNode_ok root h c (path ++ [i]) chain acc hat0 hch' hacc
    apply searchChildren_ok root h cs path (i + 1) chain _ hch hinner
    intro k c' hk
    have hr := hts (k + 1) c' (by simpa using hk)
    have harith : i + (k + 1) = (i + 1) + k := by omega
    rwa [harith] at hr

end

/-- Every entry the algorithm collects from a tree is valid for that
tree. -/
theorem collect_ok (h : String → String) (root : RuleTree) :
    FoundOk root (collect h root) := by
  apply searchNode_ok root h root [] [] [] rfl
  · exact ⟨fun pn hpn => absurd hpn (List.not_mem_nil pn), List.Pairwise.nil,
      fun pn hpn => absurd hpn (List.not_mem_nil pn)⟩
  · intro ke hke
    exact absurd hke (List.not_mem_nil ke)

/-! ## Theorems: identity propagation (claim C4) -/

/-- Claim C4 (confirmed): when the old tree collects to exactly one
advanced entry at ancestor depth 2 and the new tree to exactly one
entry of the same digest key at depth 2, reconciliation succeeds and
propagates the old identity tokens: the new directive's uuid becomes
the old directive's uuid, each of the new entry's chain nodes (pairwise
by position, roots excluded by collection) carries the uuid of the old
entry's corresponding chain node, and the matched old entry is removed
from the pool, so it can satisfy at most one new entry. -/
theorem claim_C4_propagation (h : String → String) (told tnew : RuleTree)
    (ko kn : String) (eo en : AdvEntry)
    (hold : collect h told = [(ko, [eo])])
    (hnew : collect h tnew = [(kn, [en])])
    (hkey : kn = ko)
    (hdo : eo.parents.length = 2)
    (hdn : en.parents.length = 2) :
    ∃ t, mergeAdvancedUUIDRules h told tnew = .ok t ∧
      (dirAt en.advPath t).map Directive.uuid =
        (dirAt eo.advPath told).map Directive.uuid ∧
      (∀ pq ∈ en.parents.zip eo.parents,
        (nodeAt pq.1.path t).map RuleTree.uuid =
          (nodeAt pq.2.path told).map RuleTree.uuid) ∧
      ∃ pool, mergeGroups (collect h tnew) tnew (collect h told) = .ok (t, pool) ∧
        lookupGroup pool ko = [] := by
  subst hkey
  have hokNew : EntryOk tnew en := by
    have hm1 : (kn, [en]) ∈ collect h tnew := by
      rw [hnew]
      exact List.mem_singleton.mpr rfl
    exact collect_ok h tnew (kn, [en]) hm1 en (List.mem_singleton.mpr rfl)
  have hokOld : EntryOk told eo := by
    have hm1 : (kn, [eo]) ∈ collect h told := by
      rw [hold]
      exact List.mem_singleton.mpr rfl
    exact collect_ok h told (kn, [eo]) hm1 eo (List.mem_singleton.mpr rfl)
  obtain ⟨hdirN, hparN, hpwN⟩ := hokNew
  obtain ⟨hdirO, hparO, hpwO⟩ := hokOld
  have hmg : mergeGroups (collect h tnew) tnew (collect h told) =
      .ok (applyMatchWrites en eo tnew, [(kn, [])]) := by
    rw [hnew, hold]
    simp [mergeGroups, mergeGroup, lookupGroup, findRemoveByDepth, setGroup, hdo, hdn]
  have hzipSome : ∀ pq ∈ en.parents.zip eo.parents, (nodeAt pq.1.path tnew).isSome := by
    intro pq hpq
    obtain ⟨pn, po⟩ := pq
    have hmem : pn ∈ en.parents := (List.of_mem_zip hpq).1
    have hr := hparN pn hmem
    cases hc : nodeAt pn.path tnew with
    | none => rw [hc] at hr; simp at hr
    | some n => rfl
  have hmapfst : (en.parents.zip eo.parents).map Prod.fst = en.parents :=
    List.map_fst_zip en.parents eo.parents (by rw [hdn, hdo])
  have hpwzip : (en.parents.zip eo.parents).Pairwise (fun a b => a.1.path ≠ b.1.path) := by
    have h1 : (en.parents.zip eo.parents).Pairwise
        (fun a b => a.1.path.length < b.1.path.length) := by
      have h2 := hpwN
      rw [← hmapfst, List.pairwise_map] at h2
      exact h2
    refine h1.imp ?_
    intro a b hlt heq
    rw [heq] at hlt
    exact lt_irrefl _ hlt
  have hread := writeChain_read (en.parents.zip eo.parents) tnew hpwzip hzipSome
  refine ⟨applyMatchWrites en eo tnew, ?_, ?_, ?_, [(kn, [])], hmg, by simp [lookupGroup]⟩
  · unfold mergeAdvancedUUIDRules
    rw [hmg]
  · unfold applyMatchWrites
    have hdirs := writeChain_dirs (en.parents.zip eo.parents) tnew en.advPath
    have hsomeN : (dirAt en.advPath (writeChain (en.parents.zip eo.parents) tnew)).isSome := by
      rw [hdirs]
      cases hc : dirAt en.advPath tnew with
      | none => rw [hc] at hdirN; simp at hdirN
      | some d => rfl
    rw [dirAt_setDirUuid_self en.advPath eo.advUuid _ hsomeN, hdirO]
  · intro pq hpq
    obtain ⟨pn, po⟩ := pq
    unfold applyMatchWrites
    rw [nodeAt_setDirUuid_uuid]
    rw [hread (pn, po) hpq]
    have hmem2 : po ∈ eo.parents := (List.of_mem_zip hpq).2
    rw [hparO po hmem2]

/-- Claim C4, witness: the concrete depth-2 pair propagates the old
tokens `oa`, `ob` and `o-adv` onto the new tree. -/
theorem claim_C4_witness :
    ∃ t, mergeAdvancedUUIDRules (fun s => s) c4Old c4New = .ok t ∧
      (dirAt c4NewEntry.advPath t).map Directive.uuid =
        (dirAt c4OldEntry.advPath c4Old).map Directive.uuid ∧
      (∀ pq ∈ c4NewEntry.parents.zip c4OldEntry.parents,
        (nodeAt pq.1.path t).map RuleTree.uuid =
          (nodeAt pq.2.path c4Old).map RuleTree.uuid) ∧
      ∃ pool, mergeGroups (collect (fun s => s) c4New) c4New (collect (fun s => s) c4Old) =
          .ok (t, pool) ∧ lookupGroup pool "M" = [] :=
  claim_C4_propagation (fun s => s) c4Old c4New "M" "M" c4OldEntry c4NewEntry
    rfl rfl rfl (by decide) (by decide)

/-! ## Theorems: frame conditions (claim C10) -/

/-- Writes compose by concatenation. -/
theorem applyWrites_append (ws1 ws2 : List UuidWrite) (t : RuleTree) :
    applyWrites (ws1 ++ ws2) t = applyWrites ws2 (applyWrites ws1 t) := by
  simp [applyWrites, List.foldl_append]

/-- The ancestor-chain copies are a sequence of node-uuid writes. -/
theorem writeChain_eq_applyWrites :
    ∀ (pairs : List (PathedNode × PathedNode)) (t : RuleTree),
      writeChain pairs t =
        applyWrites (pairs.map (fun pq => UuidWrite.nodeWrite pq.1.path pq.2.uuid)) t
  | [], t => rfl
  | (pn, po) :: rest, t => by
    simp only [writeChain, List.map_cons, applyWrites, List.foldl_cons]
    exact writeChain_eq_applyWrites rest _

/-- One matched pair's effect is exactly its write list. -/
theorem applyMatchWrites_eq (e eo : AdvEntry) (t : RuleTree) :
    applyMatchWrites e eo t = applyWrites (entryWrites e eo) t := by
  rw [entryWrites, applyWrites_append]
  unfold applyMatchWrites
  rw [writeChain_eq_applyWrites]
  rfl

/-- `stripUuidsList` ignores a child modification that is invisible
to `stripUuids`. -/
theorem stripUuidsList_congr :
    ∀ (ts : List RuleTree) (i : Nat) (f : RuleTree → RuleTree),
      (∀ c, stripUuids (f c) = stripUuids c) →
      stripUuidsList (mapChild f ts i) = stripUuidsList ts
  | [], _, _, _ => rfl
  | c :: cs, 0, f, hf => by simp [mapChild, stripUuidsList, hf c]
  | c :: cs, i + 1, f, hf => by
    simp [mapChild, stripUuidsList, stripUuidsList_congr cs i f hf]

/-- A node-uuid write is invisible after erasure. -/
theorem stripUuids_setNodeUuid :
    ∀ (p : List Nat) (u : Option String) (t : RuleTree),
      stripUuids (setNodeUuid p u t) = stripUuids t
  | [], _, .node .. => rfl
  | i :: p, u, .node nm u0 bs cs ch s m => by
    simp only [setNodeUuid, stripUuids]
    rw [stripUuidsList_congr ch i _ (fun c => stripUuids_setNodeUuid p u c)]

/-- Erasure of a directive list ignores a uuid write in it. -/
theorem map_setDirAt_strip :
    ∀ (ds : List Directive) (j : Nat) (u : Option String),
      (setDirAt ds j u).map (fun d => { d with uuid := none }) =
        ds.map (fun d => { d with uuid := none })
  | [], _, _ => rfl
  | d :: ds, 0, u => by simp [setDirAt]
  | d :: ds, j + 1, u => by simp [setDirAt, map_setDirAt_strip ds j u]

/-- A directive-uuid write on the owner node is invisible after
erasure. -/
theorem stripUuids_setDirHere (b : Bool) (j : Nat) (u : Option String) (t : RuleTree) :
    stripUuids (setDirHere b j u t) = stripUuids t := by
  obtain ⟨nm, u0, bs, cs, ch, s, m⟩ := t
  cases b <;> simp [setDirHere, stripUuids, map_setDirAt_strip]

/-- A directive-uuid write is invisible after erasure. -/
theorem stripUuids_setDirUuid :
    ∀ (p : List Nat) (b : Bool) (j : Nat) (u : Option String) (t : RuleTree),
      stripUuids (setDirUuid p b j u t) = stripUuids t
  | [], b, j, u, t => stripUuids_setDirHere b j u t
  | i :: p, b, j, u, .node nm u0 bs cs ch s m => by
    simp only [setDirUuid, stripUuids]
    rw [stripUuidsList_congr ch i _ (fun c => stripUuids_setDirUuid p b j u c)]

/-- Any single uuid write is invisible after erasure. -/
theorem stripUuids_applyWrite (t : RuleTree) (w : UuidWrite) :
    stripUuids (applyWrite t w) = stripUuids t := by
  cases w <;> simp [applyWrite, stripUuids_setNodeUuid, stripUuids_setDirUuid]

/-- Any sequence of uuid writes is invisible after erasure. -/
theorem stripUuids_applyWrites :
    ∀ (ws : List UuidWrite) (t : RuleTree),
      stripUuids (applyWrites ws t) = stripUuids t
  | [], _ => rfl
  | w :: ws, t => by
    have hstep : applyWrites (w :: ws) t = applyWrites ws (applyWrite t w) := rfl
    rw [hstep, stripUuids_applyWrites ws _, stripUuids_applyWrite]

/-- Every write of a matched pair targets that pair's new entry. -/
theorem entryWrites_target (e eo : AdvEntry) :
    ∀ w ∈ entryWrites e eo, EntryTargets w e := by
  intro w hw
  simp only [entryWrites, List.mem_append, List.mem_map, List.mem_singleton] at hw
  rcases hw with ⟨pq, hpq, rfl⟩ | rfl
  · exact Or.inl ⟨pq.1, (List.of_mem_zip (by simpa using hpq)).1, pq.2.uuid, rfl⟩
  · exact Or.inr ⟨eo.advUuid, rfl⟩

/-- A successful group merge applies exactly the writes of its matched
entries. -/
theorem mergeGroup_writes :
    ∀ (es : List AdvEntry) (k : String) (t : RuleTree) (pool : Found)
      (t' : RuleTree) (pool' : Found),
      mergeGroup k es t pool = .ok (t', pool') →
      ∃ ws, t' = applyWrites ws t ∧ ∀ w ∈ ws, ∃ e ∈ es, EntryTargets w e
  | [], k, t, pool, t', pool', hok => by
    simp only [mergeGroup, Except.ok.injEq, Prod.mk.injEq] at hok
    exact ⟨[], hok.1.symm, fun w hw => absurd hw (List.not_mem_nil w)⟩
  | e :: es, k, t, pool, t', pool', hok => by
    simp only [mergeGroup] at hok
    cases hfr : findRemoveByDepth (lookupGroup pool k) e.parents.length with
    | none => rw [hfr] at hok; exact absurd hok (by simp)
    | some p =>
      obtain ⟨eo, rest⟩ := p
      rw [hfr] at hok
      obtain ⟨ws', hws', htgt'⟩ := mergeGroup_writes es k _ _ t' pool' hok
      refine ⟨entryWrites e eo ++ ws', ?_, ?_⟩
      · rw [applyWrites_append, ← applyMatchWrites_eq, hws']
      · intro w hw
        rcases List.mem_append.mp hw with hw | hw
        · exact ⟨e, List.mem_cons_self _ _, entryWrites_target e eo w hw⟩
        · obtain ⟨e', he', ht'⟩ := htgt' w hw
          exact ⟨e', List.mem_cons_of_mem _ he', ht'⟩

/-- A successful merge loop applies exactly the writes of the matched
entries of its work list. -/
theorem mergeGroups_writes :
    ∀ (gs : List (String × List AdvEntry)) (t : RuleTree) (pool : Found)
      (t' : RuleTree) (pool' : Found),
      mergeGroups gs t pool = .ok (t', pool') →
      ∃ ws, t' = applyWrites ws t ∧
        ∀ w ∈ ws, ∃ ke ∈ gs, ∃ e ∈ ke.2, EntryTargets w e
  | [], t, pool, t', pool', hok => by
    simp only [mergeGroups, Except.ok.injEq, Prod.mk.injEq] at hok
    exact ⟨[], hok.1.symm, fun w hw => absurd hw (List.not_mem_nil w)⟩
  | (k, es) :: gs, t, pool, t', pool', hok => by
    simp only [mergeGroups] at hok
    cases hmg : mergeGroup k es t pool with
    | error msg => rw [hmg] at hok; exact absurd hok (by simp)
    | ok p =>
      obtain ⟨t1, pool1⟩ := p
      rw [hmg] at hok
      obtain ⟨ws1, hws1, htgt1⟩ := mergeGroup_writes es k t pool t1 pool1 hmg
      obtain ⟨ws2, hws2, htgt2⟩ := mergeGroups_writes gs t1 pool1 t' pool' hok
      refine ⟨ws1 ++ ws2, ?_, ?_⟩
      · rw [applyWrites_append, ← hws1, hws2]
      · intro w hw
        rcases List.mem_append.mp hw with hw | hw
        · obtain ⟨e, he, ht⟩ := htgt1 w hw
          exact ⟨(k, es), List.mem_cons_self _ _, e, he, ht⟩
        · obtain ⟨ke, hke, e, he, ht⟩ := htgt2 w hw
          exact ⟨ke, List.mem_cons_of_mem _ hke, e, he, ht⟩

/-- Claim C10 (confirmed): a successful reconciliation returns the new
tree itself, mutated in place — modelled as the new tree with a
sequence of uuid writes applied — and nothing else: erasing all uuid
fields of the result gives back the erased new tree (so only `uuid`
fields are ever written), and every performed write targets the uuid
of a matched `advanced`/`matchAdvanced` directive of the new tree or
of one of its chain nodes (the ancestors with non-`default` uuid,
owner included, roots excluded by collection).  The old tree, passed
as the first argument, is only read — no write ever addresses it. -/
theorem claim_C10_frame (h : String → String) (told tnew t : RuleTree)
    (hok : mergeAdvancedUUIDRules h told tnew = .ok t) :
    stripUuids t = stripUuids tnew ∧
    ∃ ws, t = applyWrites ws tnew ∧
      ∀ w ∈ ws, ∃ ke ∈ collect h tnew, ∃ e ∈ ke.2, EntryTargets w e := by
  unfold mergeAdvancedUUIDRules at hok
  cases hmg : mergeGroups (collect h tnew) tnew (collect h told) with
  | error msg => rw [hmg] at hok; exact absurd hok (by simp)
  | ok p =>
    obtain ⟨t0, pool⟩ := p
    rw [hmg] at hok
    simp only [Except.ok.injEq] at hok
    subst hok
    obtain ⟨ws, hws, htgt⟩ := mergeGroups_writes _ _ _ _ _ hmg
    exact ⟨by rw [hws, stripUuids_applyWrites], ws, hws, htgt⟩

/-- Claim C10, witness: the frame conditions at the concrete merged
pair. -/
theorem claim_C10_witness :
    stripUuids c4Merged = stripUuids c4New ∧
    ∃ ws, c4Merged = applyWrites ws c4New ∧
      ∀ w ∈ ws, ∃ ke ∈ collect (fun s => s) c4New, ∃ e ∈ ke.2, EntryTargets w e :=
  claim_C10_frame (fun s => s) c4Old c4New c4Merged rfl

end EdgeGridProperty
